import Mathlib

/-! # Reviews server: normalisation, filtering, totals and approvals

A shallow embedding of `server.js` (the Express back end of the reviews
dashboard) and the properties of its core that the specification states.

Modelling conventions.

* A JavaScript value that comes out of `JSON.parse` is a `JVal`; reading a
  property that is not there gives `JVal.undefined`, reading any property of
  `null` or `undefined` throws a `TypeError`.
* A number inside a parsed JSON document is the rational value of the double
  (JSON has no literal for `NaN`). `normalizeHostawayReview` and what is built
  on it compute on these values exactly. Where the rounding of IEEE-754
  doubles decides a property, `computeOverallRatingDouble` is the same code
  with every arithmetic operation rounded to the nearest double (`toDouble`),
  overflow to `Infinity` included. `Number(s)` of a query string is a
  `JsNumber`, which has `NaN` and the infinities.
* Code that can throw returns `Except JsError _`; the statements of a
  function are bound in source order, so the first exception wins as it does
  at run time.
* The built-ins of the JavaScript runtime whose behaviour is not defined by
  this repository (date parsing and printing, number parsing and printing,
  Unicode lower-casing, printing of arrays and objects) are the fields of
  `Runtime`; every theorem holds for every runtime. `isoRuntime` is a
  concrete runtime that agrees with JavaScript on ASCII text, on decimal
  numerals and on ISO-8601 UTC timestamps of the years 1970 to 9999.
-/

namespace ReviewsServer

/-! ## JavaScript values -/

/-- A value produced by `JSON.parse`, or `undefined`. -/
inductive JVal where
  | undefined : JVal
  | null : JVal
  | bool (b : Bool) : JVal
  | num (q : ℚ) : JVal
  | str (s : String) : JVal
  | arr (xs : List JVal) : JVal
  | obj (kvs : List (String × JVal)) : JVal

/-- The two kinds of exception the modelled code can raise. -/
inductive JsError where
  | typeError : JsError
  | rangeError : JsError
  deriving DecidableEq, Repr

/-- JavaScript `ToBoolean`. -/
def JVal.truthy : JVal → Bool
  | .undefined => false
  | .null => false
  | .bool b => b
  | .num q => decide (q ≠ 0)
  | .str s => decide (s ≠ "")
  | .arr _ => true
  | .obj _ => true

/-- The operator `a || b` on already evaluated operands (every right operand
in the modelled code is a property read or a literal, so evaluating it early
changes nothing). -/
def JVal.or (a b : JVal) : JVal := if a.truthy then a else b

/-- Whether a value is `null` or `undefined`, the test of `??` and `?.`. -/
def JVal.nullish : JVal → Bool
  | .undefined => true
  | .null => true
  | _ => false

/-- Own-property lookup in the key/value list of an object. The keys of a parsed
object are distinct; the first entry of a key is the one that counts. -/
def lookup {α : Type} : List (String × α) → String → Option α
  | [], _ => none
  | (k, v) :: rest, key => if k = key then some v else lookup rest key

/-- Property read `v.key` on a value that is neither `null` nor `undefined`,
for the fixed field names the server reads from a raw record: an own property
of an object, `undefined` on everything else. -/
def JVal.field (v : JVal) (key : String) : JVal :=
  match v with
  | .obj kvs => (lookup kvs key).getD .undefined
  | _ => .undefined

/-- Property read `v.key` on any value: a `TypeError` on `null` and on
`undefined`. -/
def JVal.get (v : JVal) (key : String) : Except JsError JVal :=
  if v.nullish then .error .typeError else .ok (v.field key)

/-- The value of `Number(s)` for a string `s`. -/
inductive JsNumber where
  | nan : JsNumber
  | posInf : JsNumber
  | negInf : JsNumber
  | fin (q : ℚ) : JsNumber
  deriving DecidableEq

/-- The test `isNaN(x)`. -/
def JsNumber.isNaN : JsNumber → Bool
  | .nan => true
  | _ => false

/-- The comparison `r >= min` of a finite number with a `Number(...)`. -/
def geNumber (r : ℚ) : JsNumber → Bool
  | .nan => false
  | .posInf => false
  | .negInf => true
  | .fin m => decide (r ≥ m)

/-- Built-ins of the JavaScript runtime that the repository uses and does not
define. `parseDate s` is the time value of `new Date(s)` in milliseconds,
`none` for an Invalid Date; `toISOString` prints a valid time value;
`parseNumber s` is `Number(s)`; `numToString`,
`arrToString` and `objToString` are `String(v)` on numbers, arrays and
objects. -/
structure Runtime where
  parseDate : String → Option ℤ
  toISOString : ℤ → String
  parseNumber : String → JsNumber
  toLowerCase : String → String
  numToString : ℚ → String
  arrToString : List JVal → String
  objToString : List (String × JVal) → String

/-- JavaScript `String(v)`, also the conversion inside a template literal. -/
def jsString (rt : Runtime) : JVal → String
  | .undefined => "undefined"
  | .null => "null"
  | .bool true => "true"
  | .bool false => "false"
  | .num q => rt.numToString q
  | .str s => s
  | .arr xs => rt.arrToString xs
  | .obj kvs => rt.objToString kvs

/-! ## String helpers -/

/-- The character class `[a-z0-9]`. -/
def isLowerAlnum (c : Char) : Bool :=
  (decide ('a' ≤ c) && decide (c ≤ 'z')) || (decide ('0' ≤ c) && decide (c ≤ '9'))

/-- The character class `[a-z0-9]` under the `i` flag. -/
def isAlnumI (c : Char) : Bool :=
  isLowerAlnum c || (decide ('A' ≤ c) && decide (c ≤ 'Z'))

/-- Global replace of every maximal run of characters outside the class `keep` by
the single character `sep`, as in `s.replace(/[^...]+/g, sep)`. The flag
`inRun` records that the previous character was already replaced. -/
def collapseRuns (keep : Char → Bool) (sep : Char) : Bool → List Char → List Char
  | _, [] => []
  | inRun, c :: cs =>
    if keep c then c :: collapseRuns keep sep false cs
    else if inRun then collapseRuns keep sep true cs
    else sep :: collapseRuns keep sep true cs

/-- Removal of one leading hyphen. -/
def dropLeadingHyphen : List Char → List Char
  | '-' :: cs => cs
  | cs => cs

/-- Removal of one trailing hyphen. -/
def dropTrailingHyphen (cs : List Char) : List Char :=
  (dropLeadingHyphen cs.reverse).reverse

/-- The function `slugify`: `String(value || '')`, lower-cased, every run outside
`[a-z0-9]` replaced by one hyphen, then `.replace(/(^-|-$)+/g, '')`. After the
first replace no two hyphens are adjacent, so the second replace removes
exactly one leading and one trailing hyphen when present. -/
def slugify (rt : Runtime) (value : JVal) : String :=
  let s := rt.toLowerCase (jsString rt (value.or (.str "")))
  String.mk (dropTrailingHyphen (dropLeadingHyphen (collapseRuns isLowerAlnum '-' false s.data)))

/-- The call `s.replace(' ', 'T')` with a string pattern: only the first
space is replaced. -/
def replaceFirstSpace : List Char → List Char
  | [] => []
  | c :: cs => if c = ' ' then 'T' :: cs else c :: replaceFirstSpace cs

/-! ## Array methods with a callback that can throw -/

/-- The method `Array.prototype.map`: the callback runs on the elements in
order and the first exception ends the call. -/
def mapE {α β : Type} (f : α → Except JsError β) : List α → Except JsError (List β)
  | [] => .ok []
  | a :: rest =>
    match f a with
    | .error e => .error e
    | .ok b =>
      match mapE f rest with
      | .error e => .error e
      | .ok bs => .ok (b :: bs)

/-- The method `Array.prototype.filter`, with the same exception behaviour. -/
def filterE {α : Type} (p : α → Except JsError Bool) : List α → Except JsError (List α)
  | [] => .ok []
  | a :: rest =>
    match p a with
    | .error e => .error e
    | .ok keep =>
      match filterE p rest with
      | .error e => .error e
      | .ok as => .ok (if keep then a :: as else as)

/-! ## Rating and date normalisation -/

/-- JavaScript `Math.round`: the nearest integer, halves rounded up. -/
def mathRound (x : ℚ) : ℤ := ⌊x + 1 / 2⌋

/-- The function `toIsoDateTime`. A falsy argument gives `null`; a truthy
non-string has no `replace` method, which is a `TypeError`; a string that
neither parse accepts makes `toISOString` throw a `RangeError`. -/
def toIsoDateTime (rt : Runtime) (dateStr : JVal) : Except JsError (Option String) :=
  if !dateStr.truthy then .ok none
  else match dateStr with
    | .str s =>
      match rt.parseDate (String.mk (replaceFirstSpace s.data) ++ "Z") with
      | some t => .ok (some (rt.toISOString t))
      | none =>
        match rt.parseDate s with
        | some t => .ok (some (rt.toISOString t))
        | none => .error .rangeError
    | _ => .error .typeError

/-- The callback `c => (typeof c.rating === 'number' ? c.rating : null)`. -/
def categoryValue (c : JVal) : Except JsError (Option ℚ) := do
  let r ← c.get "rating"
  match r with
  | .num q => pure (some q)
  | _ => pure none

/-- The function `computeOverallRating`, with its arithmetic carried out exactly. -/
def computeOverallRating (review : JVal) : Except JsError (Option ℚ) := do
  let rating ← review.get "rating"
  match rating with
  | .num r =>
    pure (some (if r > 5 then (mathRound (r / 2 * 10) : ℚ) / 10 else r))
  | _ =>
    let reviewCategory ← review.get "reviewCategory"
    match reviewCategory with
    | .arr (c :: cs) =>
      let mapped ← mapE categoryValue (c :: cs)
      let values := mapped.filterMap id
      if values.length ≠ 0 then
        let avg10 := values.foldl (fun a b => a + b) 0 / (values.length : ℚ)
        pure (some ((mathRound (avg10 / 2 * 10) : ℚ) / 10))
      else pure none
    | _ => pure none

/-! ## The overall rating in double precision

The arithmetic of `computeOverallRating` as JavaScript performs it: the
operands are doubles and every operation returns the double nearest to the
exact result (round to nearest, ties to even), or an infinity beyond the
range. Negative zero is not told apart from zero; it compares and prints in
JSON like zero. -/

/-- The binary exponent of the last place of the double nearest to `x`: 52 below
the exponent of `x`, and not below that of the subnormal doubles. -/
def ulpExponent (x : ℚ) : ℤ := max (Int.log 2 |x| - 52) (-1074)

/-- The integer nearest to `y`, a tie going to the even one. -/
def roundHalfEven (y : ℚ) : ℤ :=
  if y - ⌊y⌋ < 1 / 2 then ⌊y⌋
  else if 1 / 2 < y - ⌊y⌋ then ⌊y⌋ + 1
  else if ⌊y⌋ % 2 = 0 then ⌊y⌋ else ⌊y⌋ + 1

/-- The double nearest to the rational `x`: `x` is rounded to a multiple of its
last place, ties to the even multiple, and a result that reaches `2 ^ 1024` in
magnitude is an infinity. -/
def toDouble (x : ℚ) : JsNumber :=
  let e := ulpExponent x
  let y := (roundHalfEven (x / (2 : ℚ) ^ e) : ℚ) * (2 : ℚ) ^ e
  if (2 : ℚ) ^ (1024 : ℕ) ≤ y then .posInf
  else if y ≤ -(2 : ℚ) ^ (1024 : ℕ) then .negInf
  else .fin y

/-- Whether the rational `x` is the value of a double: rounding leaves it as it
is. -/
def isDouble (x : ℚ) : Prop := toDouble x = .fin x

instance (x : ℚ) : Decidable (isDouble x) := by
  unfold isDouble
  infer_instance

/-- The sum `a + b` of a double and a finite double `b`. -/
def JsNumber.addFinite (a : JsNumber) (b : ℚ) : JsNumber :=
  match a with
  | .fin x => toDouble (x + b)
  | other => other

/-- The quotient `a / d` of a double by a finite double `d > 0`. -/
def JsNumber.divPositive (a : JsNumber) (d : ℚ) : JsNumber :=
  match a with
  | .fin x => toDouble (x / d)
  | other => other

/-- The product `a * c` of a double and a finite double `c > 0`. -/
def JsNumber.mulPositive (a : JsNumber) (c : ℚ) : JsNumber :=
  match a with
  | .fin x => toDouble (x * c)
  | other => other

/-- JavaScript `Math.round` on a double: the nearest integer, halves rounded up,
which is again a double; `NaN` and the infinities are returned as they are. -/
def JsNumber.round (a : JsNumber) : JsNumber :=
  match a with
  | .fin x => .fin (mathRound x)
  | other => other

/-- The function `computeOverallRating` in double arithmetic. The divisors 2 and
10, the factor 10 and `values.length` are positive and finite; the ratings
added to the running sum are finite. -/
def computeOverallRatingDouble (review : JVal) : Except JsError (Option JsNumber) := do
  let rating ← review.get "rating"
  match rating with
  | .num r =>
    pure (some (if r > 5 then ((((JsNumber.fin r).divPositive 2).mulPositive 10).round).divPositive 10
      else .fin r))
  | _ =>
    let reviewCategory ← review.get "reviewCategory"
    match reviewCategory with
    | .arr (c :: cs) =>
      let mapped ← mapE categoryValue (c :: cs)
      let values := mapped.filterMap id
      if values.length ≠ 0 then
        let sum : JsNumber := values.foldl (fun a b => a.addFinite b) (.fin 0)
        let avg10 := sum.divPositive (values.length : ℚ)
        pure (some ((((avg10.divPositive 2).mulPositive 10).round).divPositive 10))
      else pure none
    | _ => pure none

/-! ## The canonical review and the approvals store -/

/-- One record of `approvals.json`. Both mutation routes check
`typeof approved === 'boolean'` before they write, so `approved` is a
boolean; `listingId` is JSON (`undefined` when the key is absent). -/
structure ApprovalRecord where
  approved : Bool
  listingId : JVal
  updatedAt : String

/-- The parsed `approvals.json`: an object from review id to record. -/
abbrev Approvals := List (String × ApprovalRecord)

/-- The object literal returned by `normalizeHostawayReview`. Fields that the
code copies from the raw record without conversion stay `JVal`. -/
structure Review where
  id : String
  source : String
  type : JVal
  status : JVal
  listingId : JVal
  listingName : JVal
  reviewerName : JVal
  submittedAt : Option String
  ratingOverall : Option ℚ
  ratingScale : ℕ
  categoryRatings : List (String × ℚ)
  textPublic : JVal
  channel : JVal
  approved : Bool

/-- Assignment `o[key] = v` on an object kept as a key/value list: an own
property is overwritten in place, a new one is added at the end. -/
def setKey {α : Type} : List (String × α) → String → α → List (String × α)
  | [], key, v => [(key, v)]
  | (k, w) :: rest, key, v =>
    if k = key then (k, v) :: rest else (k, w) :: setKey rest key v

/-- The reducer of `categories`: the key is `String(c.category || '')` with
every run outside `[a-z0-9]` (case-insensitive) replaced by an underscore, then
lower-cased; a numeric rating above 5 is halved. -/
def categoryStep (rt : Runtime) (acc : List (String × ℚ)) (c : JVal) :
    Except JsError (List (String × ℚ)) := do
  let category ← c.get "category"
  let label := jsString rt (category.or (.str ""))
  let key := rt.toLowerCase (String.mk (collapseRuns isAlnumI '_' false label.data))
  let rating ← c.get "rating"
  match rating with
  | .num q => pure (setKey acc key (if q > 5 then q / 2 else q))
  | _ => pure acc

/-- The method `Array.prototype.reduce` with a callback that can throw. -/
def foldlE {α β : Type} (f : β → α → Except JsError β) : β → List α → Except JsError β
  | acc, [] => .ok acc
  | acc, a :: rest =>
    match f acc a with
    | .error e => .error e
    | .ok acc2 => foldlE f acc2 rest

/-- The lookup `Boolean(approvalsMap[id]?.approved)`. An id without an own
entry reads `undefined` or a member of `Object.prototype`, neither of which
has a truthy `approved`. -/
def isApproved (approvalsMap : Approvals) (id : String) : Bool :=
  match lookup approvalsMap id with
  | some record => record.approved
  | none => false

/-- The expression
`String(raw.id ?? raw.reviewId ?? (listingId + '-' + toIsoDateTime(raw.submittedAt)))`
(the last operand is a template literal in the source) on a raw record that is
neither `null` nor `undefined`. -/
def reviewKey (rt : Runtime) (raw listingId : JVal) : Except JsError String :=
  if !(raw.field "id").nullish then .ok (jsString rt (raw.field "id"))
  else if !(raw.field "reviewId").nullish then .ok (jsString rt (raw.field "reviewId"))
  else
    match toIsoDateTime rt (raw.field "submittedAt") with
    | .error e => .error e
    | .ok iso => .ok (jsString rt listingId ++ "-" ++ iso.getD "null")

/-- The `categories` object of `normalizeHostawayReview`. -/
def categoriesOf (rt : Runtime) (raw : JVal) : Except JsError (List (String × ℚ)) :=
  match raw.field "reviewCategory" with
  | .arr cs => foldlE (categoryStep rt) [] cs
  | _ => .ok []

/-- The function `normalizeHostawayReview`. The first statement reads
`raw.listingName`, which throws when `raw` is `null` or `undefined`; after it
every property read of `raw` succeeds. -/
def normalizeHostawayReview (rt : Runtime) (raw : JVal) (approvalsMap : Approvals) :
    Except JsError Review :=
  if raw.nullish then .error .typeError
  else
    let listingName :=
      (raw.field "listingName").or ((raw.field "listing_title").or (.str "Unknown Listing"))
    let listingId :=
      (raw.field "listingId").or ((raw.field "listing_id").or (.str (slugify rt listingName)))
    do
      let categories ← categoriesOf rt raw
      let id ← reviewKey rt raw listingId
      let approved := isApproved approvalsMap id
      let submittedAt ← toIsoDateTime rt
        ((raw.field "submittedAt").or ((raw.field "created_at").or (raw.field "updated_at")))
      let ratingOverall ← computeOverallRating raw
      pure {
        id := id
        source := "hostaway"
        type := (raw.field "type").or ((raw.field "review_type").or (.str "guest-to-host"))
        status := (raw.field "status").or (.str "published")
        listingId := listingId
        listingName := listingName
        reviewerName := (raw.field "guestName").or ((raw.field "reviewer_name").or .null)
        submittedAt := submittedAt
        ratingOverall := ratingOverall
        ratingScale := 5
        categoryRatings := categories
        textPublic := (raw.field "publicReview").or
          ((raw.field "public_review").or ((raw.field "review_text").or (.str "")))
        channel := (raw.field "channel").or ((raw.field "platform").or (.str "direct"))
        approved := approved }

/-! ## The filter engine -/

/-- The query parameters `applyFilters` destructures, each absent or a string,
as the specification has them (Express can also deliver an array or an object
for a repeated or bracketed parameter; that is outside this model). -/
structure Query where
  listingId : Option String
  channel : Option String
  type : Option String
  approvedOnly : Option String
  minRating : Option String
  startDate : Option String
  endDate : Option String

/-- Truthiness of an optional string: present and not empty. -/
def present : Option String → Bool
  | some s => decide (s ≠ "")
  | none => false

/-- White space and line terminators, the characters `String.prototype.trim`
removes. -/
def isJsSpace (c : Char) : Bool :=
  let n := c.toNat
  n = 0x09 || n = 0x0A || n = 0x0B || n = 0x0C || n = 0x0D || n = 0x20 || n = 0xA0 ||
  n = 0x1680 || (decide (0x2000 ≤ n) && decide (n ≤ 0x200A)) || n = 0x2028 || n = 0x2029 ||
  n = 0x202F || n = 0x205F || n = 0x3000 || n = 0xFEFF

/-- The method `String.prototype.trim`. -/
def jsTrim (cs : List Char) : List Char :=
  ((cs.dropWhile isJsSpace).reverse.dropWhile isJsSpace).reverse

/-- The call `s.split(',')`; `cur` holds the reversed characters of the piece
being read. -/
def splitCommaAux : List Char → List Char → List (List Char)
  | cur, [] => [cur.reverse]
  | cur, c :: cs =>
    if c = ',' then cur.reverse :: splitCommaAux [] cs else splitCommaAux (c :: cur) cs

/-- The elements of `new Set(String(v).split(',').map(s => s.trim().toLowerCase()))`. -/
def csvSet (rt : Runtime) (v : String) : List String :=
  (splitCommaAux [] v.data).map (fun piece => rt.toLowerCase (String.mk (jsTrim piece)))

/-- The comparison `a < b` of two `Date` objects: false when either is an
Invalid Date. -/
def dateLt : Option ℤ → Option ℤ → Bool
  | some x, some y => decide (x < y)
  | _, _ => false

/-- The callback of the `listingId` filter. `r.listingId.toLowerCase()` is
evaluated first and is a `TypeError` unless `r.listingId` is a string. -/
def listingMatches (rt : Runtime) (lid : String) (r : Review) : Except JsError Bool :=
  match r.listingId with
  | .str s => .ok (rt.toLowerCase s == lid || slugify rt r.listingName == lid)
  | _ => .error .typeError

/-- The callback of the date filter; `start` and `endD` are `none` for the
JavaScript `null`, and `some d` for a `Date` (which is always truthy). -/
def dateMatches (rt : Runtime) (start endD : Option (Option ℤ)) (r : Review) : Bool :=
  match r.submittedAt with
  | none => false
  | some s =>
    if s = "" then false
    else
      let d := rt.parseDate s
      if (match start with | some st => dateLt d st | none => false) then false
      else if (match endD with | some en => dateLt en d | none => false) then false
      else true

/-- The block `if (listingId)` of `applyFilters`. -/
def filterByListing (rt : Runtime) (listingId : Option String) (filtered : List Review) :
    Except JsError (List Review) :=
  if present listingId then
    let lid := rt.toLowerCase (listingId.getD "")
    filterE (listingMatches rt lid) filtered
  else .ok filtered

/-- The block `if (channel)` of `applyFilters`. -/
def filterByChannel (rt : Runtime) (channel : Option String) (filtered : List Review) :
    List Review :=
  if present channel then
    let cset := csvSet rt (channel.getD "")
    filtered.filter (fun r => cset.contains (rt.toLowerCase (jsString rt (r.channel.or (.str "")))))
  else filtered

/-- The block `if (type)` of `applyFilters`. -/
def filterByType (rt : Runtime) (type : Option String) (filtered : List Review) : List Review :=
  if present type then
    let tset := csvSet rt (type.getD "")
    filtered.filter (fun r => tset.contains (rt.toLowerCase (jsString rt (r.type.or (.str "")))))
  else filtered

/-- The block `if (approvedOnly === 'true')` of `applyFilters`. -/
def filterByApproved (approvedOnly : Option String) (filtered : List Review) : List Review :=
  if approvedOnly = some "true" then filtered.filter (fun r => r.approved) else filtered

/-- The block `if (minRating)` of `applyFilters`. -/
def filterByMinRating (rt : Runtime) (minRating : Option String) (filtered : List Review) :
    List Review :=
  if present minRating then
    let min := rt.parseNumber (minRating.getD "")
    if !min.isNaN then
      filtered.filter (fun r =>
        match r.ratingOverall with
        | some v => geNumber v min
        | none => false)
    else filtered
  else filtered

/-- The block `if (startDate || endDate)` of `applyFilters`. -/
def filterByDates (rt : Runtime) (startDate endDate : Option String) (filtered : List Review) :
    List Review :=
  if present startDate || present endDate then
    let start := if present startDate then some (rt.parseDate (startDate.getD "")) else none
    let endD := if present endDate then some (rt.parseDate (endDate.getD "")) else none
    filtered.filter (dateMatches rt start endD)
  else filtered

/-- The function `applyFilters`: its six `if` blocks in source order. -/
def applyFilters (rt : Runtime) (reviews : List Review) (query : Query) :
    Except JsError (List Review) := do
  let filtered ← filterByListing rt query.listingId reviews
  let filtered := filterByChannel rt query.channel filtered
  let filtered := filterByType rt query.type filtered
  let filtered := filterByApproved query.approvedOnly filtered
  let filtered := filterByMinRating rt query.minRating filtered
  let filtered := filterByDates rt query.startDate query.endDate filtered
  pure filtered

/-! ## The route `GET /api/reviews/hostaway` -/

/-- The reducers of `byChannel` and `byListing`: `acc[key] = (acc[key] || 0) + 1`.
Keys that name a member of `Object.prototype` are outside this model. -/
def countKey (acc : List (String × ℕ)) (key : String) : List (String × ℕ) :=
  setKey acc key ((lookup acc key).getD 0 + 1)

/-- The `totals` object of the response. -/
structure Totals where
  all : ℕ
  approved : ℕ
  byChannel : List (String × ℕ)
  byListing : List (String × ℕ)

/-- The body of a successful response. -/
structure Response where
  status : String
  count : ℕ
  totals : Totals
  result : List Review

/-- The handler of `GET /api/reviews/hostaway` from line 195 on, where
`results` is the array of raw records and `approvals` the parsed approvals
file. An exception is what the `catch` turns into a 500 reply. -/
def getHostaway (rt : Runtime) (results : List JVal) (approvals : Approvals) (query : Query) :
    Except JsError Response := do
  let normalized ← mapE (fun r => normalizeHostawayReview rt r approvals) results
  let filtered ← applyFilters rt normalized query
  pure {
    status := "success"
    count := filtered.length
    totals := {
      all := normalized.length
      approved := (normalized.filter (fun r => r.approved)).length
      byChannel := normalized.foldl
        (fun acc r => countKey acc (jsString rt (r.channel.or (.str "unknown")))) []
      byListing := normalized.foldl (fun acc r => countKey acc (jsString rt r.listingId)) [] }
    result := filtered }

/-! ## The approval routes -/

/-- Assignment `approvals[key] = record` followed by `JSON.stringify`. An own
property is overwritten; a new key is added, except that assigning an object to
`__proto__` on an object without such an own property sets the prototype and
leaves the own properties, which are all that is written to the file, as they
were. -/
def storeRecord (approvals : Approvals) (key : String) (record : ApprovalRecord) : Approvals :=
  if key = "__proto__" ∧ (lookup approvals key).isNone then approvals
  else setKey approvals key record

/-- The outcome of a mutation route: the 400 reply with its message, or the
approvals written to the file and the record sent back. -/
inductive Outcome where
  | badRequest (message : String) : Outcome
  | success (approvals : Approvals) (result : ApprovalRecord) : Outcome

/-- The test `typeof v === 'boolean'`, returning the boolean. -/
def JVal.asBool : JVal → Option Bool
  | .bool b => some b
  | _ => none

/-- The handler of `POST /api/reviews/approvals`; `body` is `req.body`, `now` is
`new Date().toISOString()`. -/
def postApproval (rt : Runtime) (now : String) (approvals : Approvals) (body : JVal) : Outcome :=
  let b := body.or (.obj [])
  let reviewId := b.field "reviewId"
  let listingId := b.field "listingId"
  if !reviewId.truthy then .badRequest "reviewId and approved are required"
  else
    match (b.field "approved").asBool with
    | none => .badRequest "reviewId and approved are required"
    | some approved =>
      let record : ApprovalRecord :=
        { approved := approved, listingId := listingId.or .null, updatedAt := now }
      .success (storeRecord approvals (jsString rt reviewId) record) record

/-- The object `{ ...(approvals[id] || {}), approved, updatedAt }`. -/
def mergeRecord (old : Option ApprovalRecord) (approved : Bool) (now : String) : ApprovalRecord :=
  match old with
  | some r => { r with approved := approved, updatedAt := now }
  | none => { approved := approved, listingId := .undefined, updatedAt := now }

/-- The handler of `PATCH /api/reviews/:id/approve`; `id` is `req.params.id`. -/
def patchApprove (now : String) (approvals : Approvals) (id : String) (body : JVal) : Outcome :=
  let b := body.or (.obj [])
  match (b.field "approved").asBool with
  | none => .badRequest "approved (boolean) is required"
  | some approved =>
    let record := mergeRecord (lookup approvals id) approved now
    .success (storeRecord approvals id record) record

/-! ## A concrete runtime

`isoRuntime` implements the built-ins on the inputs the examples use: ASCII
lower-casing, plain decimal numerals, and UTC timestamps written
`YYYY-MM-DD`, `YYYY-MM-DDTHH:MM:SSZ` or `YYYY-MM-DDTHH:MM:SS.sssZ` with a year
from 1970 to 9999. On these it returns what JavaScript returns; other strings
are rejected (`NaN`, Invalid Date), although a JavaScript engine accepts
some of them. -/

/-- The value of a decimal digit. -/
def digitVal (c : Char) : Option ℕ :=
  if '0' ≤ c ∧ c ≤ '9' then some (c.toNat - 48) else none

/-- The number written by a list of decimal digits, continuing from `acc`. -/
def natOfDigits : ℕ → List Char → Option ℕ
  | acc, [] => some acc
  | acc, c :: cs =>
    match digitVal c with
    | some d => natOfDigits (acc * 10 + d) cs
    | none => none

/-- A non-empty list of decimal digits read as a number. -/
def readNat (cs : List Char) : Option ℕ :=
  if cs.isEmpty then none else natOfDigits 0 cs

/-- Whether a year of the Gregorian calendar is a leap year. -/
def isLeap (y : ℕ) : Bool :=
  (y % 4 = 0 && y % 100 ≠ 0) || y % 400 = 0

/-- Days in month `m` (1 to 12) of year `y`. -/
def daysInMonth (y m : ℕ) : ℕ :=
  if m = 2 then (if isLeap y then 29 else 28)
  else if m = 4 ∨ m = 6 ∨ m = 9 ∨ m = 11 then 30 else 31

/-- Days from the first of January to the first of month `m` in a common year. -/
def daysBeforeMonth (m : ℕ) : ℕ :=
  [0, 31, 59, 90, 120, 151, 181, 212, 243, 273, 304, 334].getD (m - 1) 0

/-- Days from 1970-01-01 to the given date, for a year from 1970 on. -/
def daysFromCivil (y m d : ℕ) : ℕ :=
  365 * (y - 1) + (y - 1) / 4 - (y - 1) / 100 + (y - 1) / 400 - 719162
    + daysBeforeMonth m + (if decide (m > 2) && isLeap y then 1 else 0) + (d - 1)

/-- The time value of a checked calendar date and time of day. -/
def timeValue (y m d hh mm ss ms : ℕ) : Option ℤ :=
  if 1970 ≤ y ∧ 1 ≤ m ∧ m ≤ 12 ∧ 1 ≤ d ∧ d ≤ daysInMonth y m ∧ hh ≤ 23 ∧ mm ≤ 59 ∧ ss ≤ 59 then
    some (((daysFromCivil y m d * 86400 + hh * 3600 + mm * 60 + ss) * 1000 + ms : ℕ) : ℤ)
  else none

/-- The date part `YYYY-MM-DD` at the head of a list of characters, with the
rest of the list. -/
def readDate (cs : List Char) : Option ((ℕ × ℕ × ℕ) × List Char) :=
  match readNat (cs.take 4), (cs.drop 4).take 1, readNat ((cs.drop 5).take 2),
      (cs.drop 7).take 1, readNat ((cs.drop 8).take 2) with
  | some y, ['-'], some m, ['-'], some d =>
    if (cs.take 10).length = 10 then some ((y, m, d), cs.drop 10) else none
  | _, _, _, _, _ => none

/-- The time part `THH:MM:SS` at the head of a list of characters, with the
rest of the list. -/
def readTime (cs : List Char) : Option ((ℕ × ℕ × ℕ) × List Char) :=
  match cs.take 1, readNat ((cs.drop 1).take 2), (cs.drop 3).take 1, readNat ((cs.drop 4).take 2),
      (cs.drop 6).take 1, readNat ((cs.drop 7).take 2) with
  | ['T'], some hh, [':'], some mm, [':'], some ss =>
    if (cs.take 9).length = 9 then some ((hh, mm, ss), cs.drop 9) else none
  | _, _, _, _, _, _ => none

/-- The sample `new Date(s).getTime()`. -/
def isoParseDate (s : String) : Option ℤ :=
  match readDate s.data with
  | none => none
  | some ((y, m, d), []) => timeValue y m d 0 0 0 0
  | some ((y, m, d), rest) =>
    match readTime rest with
    | none => none
    | some ((hh, mm, ss), ['Z']) => timeValue y m d hh mm ss 0
    | some ((hh, mm, ss), ['.', f1, f2, f3, 'Z']) =>
      match readNat [f1, f2, f3] with
      | some ms => timeValue y m d hh mm ss ms
      | none => none
    | some _ => none

/-- The last `k` decimal digits of `n`, most significant first. -/
def padDigits : ℕ → ℕ → List Char
  | 0, _ => []
  | k + 1, n => padDigits k (n / 10) ++ [Nat.digitChar (n % 10)]

/-- The sample `toISOString`, for a time value that is not negative (a negative
one prints as the epoch). The calendar date comes from the day number by the
usual era / day-of-era computation on years that start in March. -/
def isoToISOString (t : ℤ) : String :=
  let n := t.toNat
  let msOfDay := n % 86400000
  let z := n / 86400000 + 719468
  let era := z / 146097
  let doe := z % 146097
  let yoe := (doe - doe / 1460 + doe / 36524 - doe / 146096) / 365
  let doy := doe - (365 * yoe + yoe / 4 - yoe / 100)
  let mp := (5 * doy + 2) / 153
  let d := doy - (153 * mp + 2) / 5 + 1
  let m := if mp < 10 then mp + 3 else mp - 9
  let y := yoe + era * 400 + (if m ≤ 2 then 1 else 0)
  String.mk (padDigits 4 y ++ ['-'] ++ padDigits 2 m ++ ['-'] ++ padDigits 2 d ++ ['T'] ++
    padDigits 2 (msOfDay / 3600000) ++ [':'] ++ padDigits 2 (msOfDay / 60000 % 60) ++ [':'] ++
    padDigits 2 (msOfDay / 1000 % 60) ++ ['.'] ++ padDigits 3 (msOfDay % 1000) ++ ['Z'])

/-- An unsigned decimal numeral `digits` or `digits.digits` read as a rational. -/
def readDecimal (cs : List Char) : Option ℚ :=
  let whole := cs.takeWhile (fun c => c != '.')
  match cs.dropWhile (fun c => c != '.') with
  | [] => (readNat whole).map (fun n => (n : ℚ))
  | _ :: frac =>
    match readNat whole, readNat frac with
    | some n, some f => some ((n : ℚ) + (f : ℚ) / (10 : ℚ) ^ frac.length)
    | _, _ => none

/-- The sample `Number(s)`. -/
def isoParseNumber (s : String) : JsNumber :=
  if s = "" then .fin 0
  else if s = "Infinity" then .posInf
  else if s = "-Infinity" then .negInf
  else
    match s.data with
    | '-' :: cs =>
      match readDecimal cs with
      | some q => .fin (-q)
      | none => .nan
    | cs =>
      match readDecimal cs with
      | some q => .fin q
      | none => .nan

/-- Up to `fuel` digits of the decimal expansion of `r / den`, where `r < den`. -/
def fracDigits : ℕ → ℕ → ℕ → List Char
  | 0, _, _ => []
  | fuel + 1, r, den =>
    if r = 0 then [] else Nat.digitChar (r * 10 / den) :: fracDigits fuel (r * 10 % den) den

/-- The sample `String(q)` for a number: integers in plain decimal (as JavaScript
prints them below `1e21`), other values with up to 17 digits after the point. -/
def isoNumToString (q : ℚ) : String :=
  let sign := if q < 0 then "-" else ""
  let n := q.num.natAbs
  let whole := String.mk (Nat.toDigits 10 (n / q.den))
  if n % q.den = 0 then sign ++ whole
  else sign ++ whole ++ "." ++ String.mk (fracDigits 17 (n % q.den) q.den)

/-- The sample `String(v)` of an element of an array being joined: `null` and
`undefined` print as the empty string, elements that are arrays or objects
print as `[object Object]` (nested arrays are outside the sample). -/
def isoElemString : JVal → String
  | .undefined => ""
  | .null => ""
  | .bool true => "true"
  | .bool false => "false"
  | .num q => isoNumToString q
  | .str s => s
  | .arr _ => "[object Object]"
  | .obj _ => "[object Object]"

/-- The sample `String(xs)` of an array: the elements joined by commas. -/
def isoArrToString (xs : List JVal) : String :=
  String.intercalate "," (xs.map isoElemString)

/-- The sample runtime. -/
def isoRuntime : Runtime where
  parseDate := isoParseDate
  toISOString := isoToISOString
  parseNumber := isoParseNumber
  toLowerCase := fun s => String.mk (s.data.map Char.toLower)
  numToString := isoNumToString
  arrToString := isoArrToString
  objToString := fun _ => "[object Object]"

/-! ## Inputs of the examples -/

/-- A raw record with a direct rating on the ten-point scale. -/
def rawRatingNine : JVal :=
  .obj [("id", .num 1), ("listingName", .str "Flat A"), ("rating", .num 9),
    ("submittedAt", .str "2024-01-02 10:00:00")]

/-- Three category entries on the ten-point scale. -/
def threeCategories : List JVal :=
  [.obj [("category", .str "cleanliness"), ("rating", .num 8)],
   .obj [("category", .str "communication"), ("rating", .num 10)],
   .obj [("category", .str "respect_house_rules"), ("rating", .num 6)]]

/-- A raw record with category ratings only. -/
def rawCategories : JVal :=
  .obj [("id", .num 2), ("listingName", .str "Flat A"), ("reviewCategory", .arr threeCategories)]

/-- A raw record whose direct rating is above the ten-point scale. -/
def rawRatingTwelve : JVal :=
  .obj [("id", .num 3), ("listingName", .str "Flat A"), ("rating", .num 12)]

/-- The query without any parameter. -/
def emptyQuery : Query :=
  { listingId := none, channel := none, type := none, approvedOnly := none, minRating := none,
    startDate := none, endDate := none }

/-- The query `approvedOnly=true`. -/
def approvedOnlyQuery : Query := { emptyQuery with approvedOnly := some "true" }

/-- An approvals file in which review `1` is approved. -/
def approvalsOne : Approvals :=
  [("1", { approved := true, listingId := .str "flat-a", updatedAt := "2024-02-01T00:00:00.000Z" })]

/-- The review that `rawRatingNine` normalises to under `approvalsOne`. -/
def reviewNine : Review :=
  { id := "1"
    source := "hostaway"
    type := .str "guest-to-host"
    status := .str "published"
    listingId := .str "flat-a"
    listingName := .str "Flat A"
    reviewerName := .null
    submittedAt := some "2024-01-02T10:00:00.000Z"
    ratingOverall := some (9 / 2)
    ratingScale := 5
    categoryRatings := []
    textPublic := .str ""
    channel := .str "direct"
    approved := true }

/-- The query `channel=airbnb`. -/
def airbnbQuery : Query := { emptyQuery with channel := some "airbnb" }

/-- The query `minRating=4`. -/
def minFourQuery : Query := { emptyQuery with minRating := some "4" }

/-- An Airbnb review with the overall rating 3. -/
def reviewAirbnbThree : Review :=
  { reviewNine with id := "5", channel := .str "Airbnb", ratingOverall := some 3, approved := false }

/-- An Airbnb review with the overall rating 4.5. -/
def reviewAirbnbGood : Review :=
  { reviewNine with id := "6", channel := .str "airbnb", approved := false }

/-- Three canonical reviews: a direct booking and two Airbnb reviews. -/
def sampleReviews : List Review := [reviewNine, reviewAirbnbThree, reviewAirbnbGood]

/-- A raw record whose date is text that no date parser accepts. -/
def rawBadDate : JVal :=
  .obj [("id", .num 7), ("listingName", .str "Flat A"), ("rating", .num 4),
    ("submittedAt", .str "not a date")]

/-- A raw record without `id`, `reviewId` and `submittedAt`, dated by `created_at`. -/
def rawCreatedAtOnly : JVal :=
  .obj [("listingName", .str "Flat A"), ("created_at", .str "2024-01-02 10:00:00")]

/-- A raw record whose provider listing id is the number 42. -/
def rawNumericListing : JVal :=
  .obj [("id", .num 8), ("listingId", .num 42), ("listingName", .str "Flat A")]

/-- The review that `rawNumericListing` normalises to. -/
def reviewNumericListing : Review :=
  { id := "8"
    source := "hostaway"
    type := .str "guest-to-host"
    status := .str "published"
    listingId := .num 42
    listingName := .str "Flat A"
    reviewerName := .null
    submittedAt := none
    ratingOverall := none
    ratingScale := 5
    categoryRatings := []
    textPublic := .str ""
    channel := .str "direct"
    approved := false }

/-- The query `listingId=42`. -/
def listingQuery : Query := { emptyQuery with listingId := some "42" }

/-- The body of a first approval of review `123` with its listing. -/
def bodyApprove : JVal :=
  .obj [("reviewId", .str "123"), ("approved", .bool true), ("listingId", .str "flat-a")]

/-- The body of a later withdrawal of the approval, without `listingId`. -/
def bodyWithdraw : JVal :=
  .obj [("reviewId", .str "123"), ("approved", .bool false)]

/-- The record of an approved review of listing `flat-a`. -/
def recordFlatA : ApprovalRecord :=
  { approved := true, listingId := .str "flat-a", updatedAt := "2024-02-01T00:00:00.000Z" }

/-- An approvals file that holds `recordFlatA` under the id `123`. -/
def approvalsFlatA : Approvals := [("123", recordFlatA)]

/-- A raw record whose direct rating is the double nearest to 5.1. -/
def rawFivePointOne : JVal :=
  .obj [("id", .num 4), ("listingName", .str "Flat A"),
    ("rating", .num (2871044762448691 / 562949953421312))]

/-- Category entries rated 5, 9.9 and 10, with 9.9 as the double nearest to it. -/
def unevenCategories : List JVal :=
  [.obj [("category", .str "cleanliness"), ("rating", .num 5)],
   .obj [("category", .str "communication"),
     ("rating", .num (5573204538870989 / 562949953421312))],
   .obj [("category", .str "respect_house_rules"), ("rating", .num 10)]]

/-- A raw record with the category ratings 5, 9.9 and 10 only. -/
def rawUnevenCategories : JVal :=
  .obj [("id", .num 5), ("listingName", .str "Flat A"),
    ("reviewCategory", .arr unevenCategories)]

/-- A raw record whose direct rating is the double `2 ^ 1022`. -/
def rawHugeRating : JVal :=
  .obj [("id", .num 6), ("listingName", .str "Flat A"), ("rating", .num (2 ^ (1022 : ℕ)))]

end ReviewsServer

/-! # Properties -/

namespace ReviewsServer

/-! ## Shared lemmas -/

theorem mapE_ok_mem {α β : Type} (f : α → Except JsError β) :
    ∀ (l : List α) (l2 : List β), mapE f l = .ok l2 → ∀ y ∈ l2, ∃ x ∈ l, f x = .ok y := by
  intro l
  induction l with
  | nil =>
    intro l2 h y hy
    simp [mapE] at h
    subst h
    simp at hy
  | cons a rest ih =>
    intro l2 h y hy
    simp only [mapE] at h
    cases hfa : f a with
    | error e => simp [hfa] at h
    | ok b =>
      cases hrest : mapE f rest with
      | error e => simp [hfa, hrest] at h
      | ok bs =>
        simp [hfa, hrest] at h
        subst h
        rcases List.mem_cons.mp hy with hyb | hybs
        · exact ⟨a, List.mem_cons_self _ _, by rw [hfa, hyb]⟩
        · obtain ⟨x, hx, hfx⟩ := ih bs hrest y hybs
          exact ⟨x, List.mem_cons_of_mem _ hx, hfx⟩

theorem mapE_ok_length {α β : Type} (f : α → Except JsError β) :
    ∀ (l : List α) (l2 : List β), mapE f l = .ok l2 → l2.length = l.length := by
  intro l
  induction l with
  | nil =>
    intro l2 h
    simp [mapE] at h
    subst h
    rfl
  | cons a rest ih =>
    intro l2 h
    simp only [mapE] at h
    cases hfa : f a with
    | error e => simp [hfa] at h
    | ok b =>
      cases hrest : mapE f rest with
      | error e => simp [hfa, hrest] at h
      | ok bs =>
        simp [hfa, hrest] at h
        subst h
        simp [ih bs hrest]

theorem mapE_error_of_mem {α β : Type} (f : α → Except JsError β) :
    ∀ (l : List α) (x : α), x ∈ l → (∀ y, f x ≠ .ok y) → ∀ l2, mapE f l ≠ .ok l2 := by
  intro l x hx hfx l2 h
  induction l generalizing l2 with
  | nil => simp at hx
  | cons a rest ih =>
    simp only [mapE] at h
    cases hfa : f a with
    | error e => simp [hfa] at h
    | ok b =>
      cases hrest : mapE f rest with
      | error e => simp [hfa, hrest] at h
      | ok bs =>
        rcases List.mem_cons.mp hx with hxa | hxr
        · subst hxa
          exact hfx b hfa
        · exact ih hxr bs hrest

theorem filterE_ok_of_total {α : Type} (p : α → Except JsError Bool) (q : α → Bool) :
    ∀ l : List α, (∀ a ∈ l, p a = .ok (q a)) → filterE p l = .ok (l.filter q) := by
  intro l
  induction l with
  | nil => intro _; rfl
  | cons a rest ih =>
    intro h
    have ha := h a (List.mem_cons_self _ _)
    have hr := ih (fun x hx => h x (List.mem_cons_of_mem _ hx))
    simp only [filterE, ha, hr, List.filter_cons]

theorem filterE_ok_subset {α : Type} (p : α → Except JsError Bool) :
    ∀ (l l2 : List α), filterE p l = .ok l2 → ∀ a ∈ l2, a ∈ l := by
  intro l
  induction l with
  | nil =>
    intro l2 h a ha
    simp [filterE] at h
    subst h
    simp at ha
  | cons x rest ih =>
    intro l2 h a ha
    simp only [filterE] at h
    cases hpx : p x with
    | error e => simp [hpx] at h
    | ok keep =>
      cases hrest : filterE p rest with
      | error e => simp [hpx, hrest] at h
      | ok as =>
        simp [hpx, hrest] at h
        subst h
        cases keep with
        | true =>
          simp at ha
          rcases ha with hax | har
          · simp [hax]
          · exact List.mem_cons_of_mem _ (ih as hrest a har)
        | false =>
          simp at ha
          exact List.mem_cons_of_mem _ (ih as hrest a ha)

theorem field_num_not_nullish (v : JVal) (key : String) (q : ℚ) (h : v.field key = .num q) :
    v.nullish = false := by
  cases v <;> first | rfl | simp [JVal.field] at h

theorem field_arr_not_nullish (v : JVal) (key : String) (xs : List JVal)
    (h : v.field key = .arr xs) : v.nullish = false := by
  cases v <;> first | rfl | simp [JVal.field] at h

theorem mathRound_tenth_bounds (x : ℚ) :
    x - 1 / 20 < (mathRound (x * 10) : ℚ) / 10 ∧ (mathRound (x * 10) : ℚ) / 10 ≤ x + 1 / 20 := by
  unfold mathRound
  have h1 := Int.floor_le (x * 10 + 1 / 2)
  have h2 := Int.lt_floor_add_one (x * 10 + 1 / 2)
  constructor
  · rw [lt_div_iff₀ (by norm_num : (0 : ℚ) < 10)]
    linarith
  · rw [div_le_iff₀ (by norm_num : (0 : ℚ) < 10)]
    linarith

theorem computeOverallRating_of_num (review : JVal) (r : ℚ) (h : review.field "rating" = .num r) :
    computeOverallRating review =
      .ok (some (if r > 5 then (mathRound (r / 2 * 10) : ℚ) / 10 else r)) := by
  have hn := field_num_not_nullish review "rating" r h
  simp [computeOverallRating, JVal.get, hn, h, bind, Except.bind, pure, Except.pure]

theorem mapE_categoryValue (cs : List JVal) (qs : List ℚ)
    (h : List.Forall₂ (fun c q => c.field "rating" = JVal.num q) cs qs) :
    mapE categoryValue cs = .ok (qs.map some) := by
  induction h with
  | nil => rfl
  | @cons c q cs2 qs2 hcq _ ih =>
    have hn := field_num_not_nullish c "rating" q hcq
    simp [mapE, categoryValue, JVal.get, hn, hcq, ih, bind, Except.bind, pure, Except.pure]

theorem foldl_add_eq_sum (qs : List ℚ) (a : ℚ) :
    List.foldl (fun x y => x + y) a qs = a + qs.sum := by
  induction qs generalizing a with
  | nil => simp
  | cons q rest ih => simp [List.foldl, ih, add_assoc]

/-! ## The shape of a normalised review -/

theorem normalize_ok (rt : Runtime) (raw : JVal) (ap : Approvals) (rv : Review)
    (h : normalizeHostawayReview rt raw ap = .ok rv) :
    raw.nullish = false ∧
    rv.listingName =
      (raw.field "listingName").or ((raw.field "listing_title").or (.str "Unknown Listing")) ∧
    rv.listingId =
      (raw.field "listingId").or ((raw.field "listing_id").or (.str (slugify rt rv.listingName))) ∧
    reviewKey rt raw rv.listingId = .ok rv.id ∧
    rv.approved = isApproved ap rv.id ∧
    toIsoDateTime rt
      ((raw.field "submittedAt").or ((raw.field "created_at").or (raw.field "updated_at")))
        = .ok rv.submittedAt ∧
    computeOverallRating raw = .ok rv.ratingOverall := by
  simp only [normalizeHostawayReview] at h
  split at h
  · simp at h
  · rename_i hnull
    simp only [bind, Except.bind, pure, Except.pure] at h
    split at h
    · simp at h
    · split at h
      · simp at h
      · rename_i hid
        split at h
        · simp at h
        · rename_i hsub
          split at h
          · simp at h
          · rename_i hrate
            simp only [Except.ok.injEq] at h
            subst h
            simp only [hid, hsub, hrate]
            simpa using hnull

/-! ## C4: the range of the overall rating -/

theorem mathRound_half_range (x : ℚ) (h0 : 0 ≤ x) (h10 : x ≤ 10) :
    0 ≤ (mathRound (x / 2 * 10) : ℚ) / 10 ∧ (mathRound (x / 2 * 10) : ℚ) / 10 ≤ 5 := by
  unfold mathRound
  have hnn : (0 : ℤ) ≤ ⌊x / 2 * 10 + 1 / 2⌋ := Int.floor_nonneg.mpr (by linarith)
  have hle : ⌊x / 2 * 10 + 1 / 2⌋ ≤ (50 : ℤ) := Int.floor_le_iff.mpr (by push_cast; linarith)
  have hnn2 : (0 : ℚ) ≤ (⌊x / 2 * 10 + 1 / 2⌋ : ℚ) := by exact_mod_cast hnn
  have hle2 : (⌊x / 2 * 10 + 1 / 2⌋ : ℚ) ≤ 50 := by exact_mod_cast hle
  constructor
  · exact div_nonneg hnn2 (by norm_num)
  · rw [div_le_iff₀ (by norm_num : (0 : ℚ) < 10)]
    linarith

theorem sum_range (l : List ℚ) (h : ∀ v ∈ l, 0 ≤ v ∧ v ≤ 10) :
    0 ≤ l.sum ∧ l.sum ≤ 10 * (l.length : ℚ) := by
  induction l with
  | nil => simp
  | cons v rest ih =>
    have hv := h v (List.mem_cons_self _ _)
    have hr := ih (fun w hw => h w (List.mem_cons_of_mem _ hw))
    simp only [List.sum_cons, List.length_cons]
    push_cast
    constructor <;> linarith [hv.1, hv.2, hr.1, hr.2]

theorem mean_range (l : List ℚ) (hne : l.length ≠ 0) (h : ∀ v ∈ l, 0 ≤ v ∧ v ≤ 10) :
    0 ≤ l.sum / (l.length : ℚ) ∧ l.sum / (l.length : ℚ) ≤ 10 := by
  have hs := sum_range l h
  have hpos : (0 : ℚ) < (l.length : ℚ) := by exact_mod_cast Nat.pos_of_ne_zero hne
  constructor
  · exact div_nonneg hs.1 hpos.le
  · rw [div_le_iff₀ hpos]
    exact hs.2

theorem categoryValue_ok (c : JVal) (q : ℚ) (h : categoryValue c = .ok (some q)) :
    c.field "rating" = .num q := by
  unfold categoryValue at h
  simp only [JVal.get, bind, Except.bind, pure, Except.pure] at h
  split at h
  · simp at h
  · rename_i v hv
    split at hv
    · simp at hv
    · simp only [Except.ok.injEq] at hv
      subst hv
      split at h
      · rename_i q2 hq2
        simp only [Except.ok.injEq, Option.some.injEq] at h
        rw [hq2, h]
      · simp at h

theorem computeOverallRating_of_not_num (review : JVal) (hn : review.nullish = false)
    (hr : ∀ r, review.field "rating" ≠ .num r) :
    computeOverallRating review =
      match review.field "reviewCategory" with
      | .arr (c :: cs) =>
        match mapE categoryValue (c :: cs) with
        | .error e => .error e
        | .ok mapped =>
          if (mapped.filterMap id).length ≠ 0 then
            .ok (some ((mathRound
              ((mapped.filterMap id).sum / ((mapped.filterMap id).length : ℚ) / 2 * 10) : ℚ) / 10))
          else .ok none
      | _ => .ok none := by
  unfold computeOverallRating
  simp only [JVal.get, hn, bind, Except.bind, pure, Except.pure, foldl_add_eq_sum, zero_add]
  cases hrt : review.field "rating" with
  | num r => exact absurd hrt (hr r)
  | undefined | null | bool _ | str _ | arr _ | obj _ =>
    simp only [Bool.false_eq_true, if_false]
    cases review.field "reviewCategory" with
    | arr xs =>
      cases xs with
      | nil => rfl
      | cons c cs =>
        simp only
        cases mapE categoryValue (c :: cs) with
        | error e => rfl
        | ok mapped => simp
    | _ => rfl

theorem computeOverallRating_range (review : JVal) (o : Option ℚ)
    (h : computeOverallRating review = .ok o)
    (hdirect : ∀ r, review.field "rating" = .num r → 0 ≤ r ∧ r ≤ 10)
    (hcats : ∀ cs, review.field "reviewCategory" = .arr cs →
      ∀ c ∈ cs, ∀ q, c.field "rating" = .num q → 0 ≤ q ∧ q ≤ 10) :
    o = none ∨ ∃ v, o = some v ∧ 0 ≤ v ∧ v ≤ 5 := by
  by_cases hnum : ∃ r, review.field "rating" = .num r
  · obtain ⟨r, hr⟩ := hnum
    have hb := hdirect r hr
    rw [computeOverallRating_of_num review r hr] at h
    simp only [Except.ok.injEq] at h
    right
    refine ⟨_, h.symm, ?_⟩
    by_cases h5 : r > 5
    · rw [if_pos h5]
      exact mathRound_half_range r hb.1 hb.2
    · rw [if_neg h5]
      exact ⟨hb.1, not_lt.mp h5⟩
  · have hr : ∀ r, review.field "rating" ≠ .num r := fun r hrr => hnum ⟨r, hrr⟩
    have hn : review.nullish = false := by
      cases hnl : review.nullish with
      | false => rfl
      | true => simp [computeOverallRating, JVal.get, hnl, bind, Except.bind] at h
    rw [computeOverallRating_of_not_num review hn hr] at h
    split at h
    · rename_i c cs hcs
      split at h
      · simp at h
      · rename_i mapped hmapped
        split at h
        · rename_i hlen
          simp only [Except.ok.injEq] at h
          right
          refine ⟨_, h.symm, ?_⟩
          have hvals : ∀ v ∈ List.filterMap id mapped, 0 ≤ v ∧ v ≤ 10 := by
            intro v hv
            rw [List.mem_filterMap] at hv
            obtain ⟨ov, hov, hid⟩ := hv
            simp only [id] at hid
            subst hid
            obtain ⟨c2, hc2, hf⟩ := mapE_ok_mem categoryValue _ _ hmapped _ hov
            exact hcats _ hcs c2 hc2 v (categoryValue_ok c2 v hf)
          have hm := mean_range _ hlen hvals
          exact mathRound_half_range _ hm.1 hm.2
        · simp only [Except.ok.injEq] at h
          left
          exact h.symm
    · simp only [Except.ok.injEq] at h
      left
      exact h.symm

/-- C4 as the code has it: whenever `normalizeHostawayReview` returns a review, its
`ratingOverall` is `null` or a number, and the number lies in the closed interval
from 0 to 5 provided the ratings of the raw record lie on the ten-point scale:
the direct numeric rating, if present, and every numeric category rating are
between 0 and 10. -/
theorem ratingOverall_range_on_ten_scale (rt : Runtime) (raw : JVal) (ap : Approvals)
    (rv : Review) (h : normalizeHostawayReview rt raw ap = .ok rv)
    (hdirect : ∀ r, raw.field "rating" = .num r → 0 ≤ r ∧ r ≤ 10)
    (hcats : ∀ cs, raw.field "reviewCategory" = .arr cs →
      ∀ c ∈ cs, ∀ q, c.field "rating" = .num q → 0 ≤ q ∧ q ≤ 10) :
    rv.ratingOverall = none ∨ ∃ v, rv.ratingOverall = some v ∧ 0 ≤ v ∧ v ≤ 5 :=
  computeOverallRating_range raw rv.ratingOverall (normalize_ok rt raw ap rv h).2.2.2.2.2.2
    hdirect hcats

theorem normalize_eq (rt : Runtime) (raw : JVal) (ap : Approvals) (cats : List (String × ℚ))
    (id : String) (sub : Option String) (o : Option ℚ)
    (hn : raw.nullish = false)
    (hc : categoriesOf rt raw = .ok cats)
    (hk : reviewKey rt raw ((raw.field "listingId").or ((raw.field "listing_id").or
      (.str (slugify rt ((raw.field "listingName").or
        ((raw.field "listing_title").or (.str "Unknown Listing"))))))) = .ok id)
    (hs : toIsoDateTime rt
      ((raw.field "submittedAt").or ((raw.field "created_at").or (raw.field "updated_at")))
        = .ok sub)
    (ho : computeOverallRating raw = .ok o) :
    normalizeHostawayReview rt raw ap = .ok {
      id := id
      source := "hostaway"
      type := (raw.field "type").or ((raw.field "review_type").or (.str "guest-to-host"))
      status := (raw.field "status").or (.str "published")
      listingId := (raw.field "listingId").or ((raw.field "listing_id").or
        (.str (slugify rt ((raw.field "listingName").or
          ((raw.field "listing_title").or (.str "Unknown Listing"))))))
      listingName :=
        (raw.field "listingName").or ((raw.field "listing_title").or (.str "Unknown Listing"))
      reviewerName := (raw.field "guestName").or ((raw.field "reviewer_name").or .null)
      submittedAt := sub
      ratingOverall := o
      ratingScale := 5
      categoryRatings := cats
      textPublic := (raw.field "publicReview").or
        ((raw.field "public_review").or ((raw.field "review_text").or (.str "")))
      channel := (raw.field "channel").or ((raw.field "platform").or (.str "direct"))
      approved := isApproved ap id } := by
  simp [normalizeHostawayReview, hn, hc, hk, hs, ho, bind, Except.bind, pure, Except.pure]

theorem computeOverallRating_twelve : computeOverallRating rawRatingTwelve = .ok (some 6) := by
  rw [computeOverallRating_of_num rawRatingTwelve 12 rfl]
  norm_num [mathRound]

/-- C4 fails as stated: the raw record with the direct rating 12 is normalised
without error and gets the overall rating 6, which is above 5. -/
theorem ratingOverall_above_five :
    ∃ rv, normalizeHostawayReview isoRuntime rawRatingTwelve [] = .ok rv ∧
      rv.ratingOverall = some 6 ∧ ¬ ((6 : ℚ) ≤ 5) :=
  ⟨_, normalize_eq isoRuntime rawRatingTwelve [] [] "3" none (some 6) rfl rfl rfl rfl
    computeOverallRating_twelve, rfl, by norm_num⟩

/-- C4 as the code has it, at the record with the direct rating 9: the record is
normalised and its overall rating 4.5 lies between 0 and 5. -/
theorem ratingOverall_range_nine :
    ∃ rv, normalizeHostawayReview isoRuntime rawRatingNine [] = .ok rv ∧
      rv.ratingOverall = some (9 / 2) ∧
      (rv.ratingOverall = none ∨ ∃ v, rv.ratingOverall = some v ∧ 0 ≤ v ∧ v ≤ 5) := by
  have hrate : computeOverallRating rawRatingNine = .ok (some (9 / 2)) := by
    rw [computeOverallRating_of_num rawRatingNine 9 rfl]
    norm_num [mathRound]
  have hnorm := normalize_eq isoRuntime rawRatingNine [] [] "1"
    (some "2024-01-02T10:00:00.000Z") (some (9 / 2)) rfl rfl rfl rfl hrate
  refine ⟨_, hnorm, rfl, ?_⟩
  refine ratingOverall_range_on_ten_scale isoRuntime rawRatingNine [] _ hnorm ?_ ?_
  · intro r hr
    have h9 : rawRatingNine.field "rating" = .num 9 := rfl
    rw [h9] at hr
    injection hr with hr
    subst hr
    norm_num
  · intro cs hcs
    have hu : rawRatingNine.field "reviewCategory" = .undefined := rfl
    rw [hu] at hcs
    cases hcs

/-! ## The filter engine -/

theorem filter_if {α : Type} (c : Prop) [Decidable c] (p : α → Bool) (l : List α) :
    (if c then l.filter p else l) = l.filter (fun a => if c then p a else true) := by
  split <;> simp

theorem applyFilters_after_listing (rt : Runtime) (rs : List Review) (q : Query) :
    applyFilters rt rs q =
      match filterByListing rt q.listingId rs with
      | .error e => .error e
      | .ok l => .ok (filterByDates rt q.startDate q.endDate (filterByMinRating rt q.minRating
          (filterByApproved q.approvedOnly (filterByType rt q.type
            (filterByChannel rt q.channel l))))) := by
  unfold applyFilters
  cases filterByListing rt q.listingId rs <;> rfl

theorem laterStages_filter (rt : Runtime) (q : Query) :
    ∃ p : Review → Bool, (∀ l : List Review,
      filterByDates rt q.startDate q.endDate (filterByMinRating rt q.minRating
        (filterByApproved q.approvedOnly (filterByType rt q.type
          (filterByChannel rt q.channel l)))) = l.filter p) ∧
      ∀ r, p r = true → q.approvedOnly = some "true" → r.approved = true := by
  let pC : Review → Bool := fun r => if present q.channel = true then
    (csvSet rt (q.channel.getD "")).contains
      (rt.toLowerCase (jsString rt (r.channel.or (.str "")))) else true
  let pT : Review → Bool := fun r => if present q.type = true then
    (csvSet rt (q.type.getD "")).contains
      (rt.toLowerCase (jsString rt (r.type.or (.str "")))) else true
  let pA : Review → Bool := fun r => if q.approvedOnly = some "true" then r.approved else true
  let pM : Review → Bool := fun r =>
    if present q.minRating = true ∧ (!(rt.parseNumber (q.minRating.getD "")).isNaN) = true then
      (match r.ratingOverall with
        | some v => geNumber v (rt.parseNumber (q.minRating.getD ""))
        | none => false) else true
  let pD : Review → Bool := fun r => if (present q.startDate || present q.endDate) = true then
    dateMatches rt
      (if present q.startDate then some (rt.parseDate (q.startDate.getD "")) else none)
      (if present q.endDate then some (rt.parseDate (q.endDate.getD "")) else none) r
    else true
  have hchannel : ∀ l : List Review, filterByChannel rt q.channel l = l.filter pC := by
    intro l
    unfold filterByChannel
    exact filter_if _ _ l
  have htype : ∀ l : List Review, filterByType rt q.type l = l.filter pT := by
    intro l
    unfold filterByType
    exact filter_if _ _ l
  have happroved : ∀ l : List Review, filterByApproved q.approvedOnly l = l.filter pA := by
    intro l
    unfold filterByApproved
    exact filter_if _ _ l
  have hmin : ∀ l : List Review, filterByMinRating rt q.minRating l = l.filter pM := by
    intro l
    unfold filterByMinRating
    by_cases h1 : present q.minRating = true
    · by_cases h2 : (!(rt.parseNumber (q.minRating.getD "")).isNaN) = true
      · simp [pM, h1, h2]
      · simp [pM, h1, h2]
    · simp [pM, h1]
  have hdates : ∀ l : List Review, filterByDates rt q.startDate q.endDate l = l.filter pD := by
    intro l
    unfold filterByDates
    exact filter_if _ _ l
  refine ⟨fun r => pD r && (pM r && (pA r && (pT r && pC r))), fun l => ?_, ?_⟩
  · rw [hchannel, htype, happroved, hmin, hdates]
    simp only [List.filter_filter]
  · intro r hp hq
    simp only [Bool.and_eq_true] at hp
    have := hp.2.2.1
    simp only [pA] at this
    rw [if_pos hq] at this
    exact this

theorem filterByListing_of_strings (rt : Runtime) (q : Query) :
    ∃ p : Review → Bool, ∀ rs : List Review, (∀ r ∈ rs, ∃ s, r.listingId = .str s) →
      filterByListing rt q.listingId rs = .ok (rs.filter p) := by
  by_cases hp : present q.listingId = true
  · refine ⟨fun r => match r.listingId with
      | .str s => (rt.toLowerCase s == rt.toLowerCase (q.listingId.getD "") ||
          slugify rt r.listingName == rt.toLowerCase (q.listingId.getD ""))
      | _ => false, ?_⟩
    intro rs hs
    unfold filterByListing
    rw [if_pos hp]
    apply filterE_ok_of_total
    intro r hr
    obtain ⟨s, hrs⟩ := hs r hr
    simp only [listingMatches, hrs]
  · refine ⟨fun _ => true, ?_⟩
    intro rs _
    unfold filterByListing
    rw [if_neg hp]
    simp

theorem applyFilters_of_strings (rt : Runtime) (q : Query) :
    ∃ p : Review → Bool, ∀ rs : List Review, (∀ r ∈ rs, ∃ s, r.listingId = .str s) →
      applyFilters rt rs q = .ok (rs.filter p) := by
  obtain ⟨pL, hL⟩ := filterByListing_of_strings rt q
  obtain ⟨pR, hR, _⟩ := laterStages_filter rt q
  refine ⟨fun r => pR r && pL r, ?_⟩
  intro rs hs
  rw [applyFilters_after_listing, hL rs hs]
  simp only [hR, List.filter_filter]

theorem applyFilters_ok_mem (rt : Runtime) (rs res : List Review) (q : Query)
    (h : applyFilters rt rs q = .ok res) :
    ∀ r ∈ res, r ∈ rs ∧ (q.approvedOnly = some "true" → r.approved = true) := by
  obtain ⟨pR, hR, hA⟩ := laterStages_filter rt q
  rw [applyFilters_after_listing] at h
  cases hl : filterByListing rt q.listingId rs with
  | error e => simp [hl] at h
  | ok l =>
    simp only [hl, hR, Except.ok.injEq] at h
    subst h
    intro r hr
    rw [List.mem_filter] at hr
    have hsub : ∀ a ∈ l, a ∈ rs := by
      unfold filterByListing at hl
      split at hl
      · exact filterE_ok_subset _ rs l hl
      · simp only [Except.ok.injEq] at hl
        subst hl
        exact fun a ha => ha
    exact ⟨hsub r hr.1, hA r hr.2⟩

/-! ## C1: `approvedOnly=true` returns approved reviews only -/

/-- C1: for raw records that normalise to `normalized` under a snapshot, and a
query whose `approvedOnly` is the string `true`, every review that
`applyFilters` returns has an entry under its id in the snapshot whose `approved`
is true; with an empty snapshot the result is the empty list. -/
theorem approvedOnly_results_are_approved (rt : Runtime) (raws : List JVal)
    (snapshot : Approvals) (query : Query) (normalized result : List Review)
    (hq : query.approvedOnly = some "true")
    (hnorm : mapE (fun raw => normalizeHostawayReview rt raw snapshot) raws = .ok normalized)
    (hres : applyFilters rt normalized query = .ok result) :
    (∀ r ∈ result, ∃ record, lookup snapshot r.id = some record ∧ record.approved = true) ∧
    (snapshot = [] → result = []) := by
  have key : ∀ r ∈ result, ∃ record, lookup snapshot r.id = some record ∧
      record.approved = true := by
    intro r hr
    obtain ⟨hmem, happ⟩ := applyFilters_ok_mem rt normalized result query hres r hr
    obtain ⟨raw, _, hraw⟩ := mapE_ok_mem _ raws normalized hnorm r hmem
    have hrec := (normalize_ok rt raw snapshot r hraw).2.2.2.2.1
    have htrue := happ hq
    rw [hrec] at htrue
    unfold isApproved at htrue
    cases hl : lookup snapshot r.id with
    | none => simp [hl] at htrue
    | some record =>
      simp only [hl] at htrue
      exact ⟨record, rfl, htrue⟩
  refine ⟨key, ?_⟩
  intro hempty
  subst hempty
  cases result with
  | nil => rfl
  | cons r rest =>
    obtain ⟨record, hl, _⟩ := key r (List.mem_cons_self _ _)
    simp [lookup] at hl

theorem normalize_rawRatingNine :
    normalizeHostawayReview isoRuntime rawRatingNine approvalsOne = .ok reviewNine := by
  have hrate : computeOverallRating rawRatingNine = .ok (some (9 / 2)) := by
    rw [computeOverallRating_of_num rawRatingNine 9 rfl]
    norm_num [mathRound]
  exact normalize_eq isoRuntime rawRatingNine approvalsOne [] "1"
    (some "2024-01-02T10:00:00.000Z") (some (9 / 2)) rfl rfl rfl rfl hrate

/-- C1 at one approved record: the record with rating 9 is approved in the
snapshot, passes `approvedOnly=true`, and its id has an approved entry. -/
theorem approvedOnly_results_are_approved_example :
    applyFilters isoRuntime [reviewNine] approvedOnlyQuery = .ok [reviewNine] ∧
    ((∀ r ∈ [reviewNine], ∃ record, lookup approvalsOne r.id = some record ∧
        record.approved = true) ∧
      (approvalsOne = [] → [reviewNine] = [])) :=
  ⟨rfl, approvedOnly_results_are_approved isoRuntime [rawRatingNine] approvalsOne
    approvedOnlyQuery [reviewNine] [reviewNine] rfl
    (by simp [mapE, normalize_rawRatingNine]) rfl⟩

/-! ## C6: filtering commutes and is idempotent -/

/-- C6: on a list of canonical reviews (the `listingId` of each is a string, as
the data model has it) `applyFilters` returns for every query, filtering by `q1`
and then by `q2` gives the same list as filtering by `q2` and then by `q1`, and
filtering by `q1` a second time changes nothing. -/
theorem applyFilters_comm_idem (rt : Runtime) (rs : List Review) (q1 q2 : Query)
    (hs : ∀ r ∈ rs, ∃ s, r.listingId = .str s) :
    ∃ l1 l2 l12 : List Review,
      applyFilters rt rs q1 = .ok l1 ∧ applyFilters rt rs q2 = .ok l2 ∧
      applyFilters rt l1 q2 = .ok l12 ∧ applyFilters rt l2 q1 = .ok l12 ∧
      applyFilters rt l1 q1 = .ok l1 := by
  obtain ⟨p1, h1⟩ := applyFilters_of_strings rt q1
  obtain ⟨p2, h2⟩ := applyFilters_of_strings rt q2
  have hs1 : ∀ r ∈ rs.filter p1, ∃ s, r.listingId = .str s :=
    fun r hr => hs r (List.mem_filter.mp hr).1
  have hs2 : ∀ r ∈ rs.filter p2, ∃ s, r.listingId = .str s :=
    fun r hr => hs r (List.mem_filter.mp hr).1
  refine ⟨rs.filter p1, rs.filter p2, (rs.filter p1).filter p2, h1 rs hs, h2 rs hs,
    h2 _ hs1, ?_, ?_⟩
  · rw [h1 _ hs2, List.filter_filter, List.filter_filter]
    simp only [Bool.and_comm]
  · rw [h1 _ hs1, List.filter_filter]
    simp only [Bool.and_self]

theorem parseNumber_four : isoRuntime.parseNumber "4" = .fin 4 := by
  have h : isoRuntime.parseNumber "4" = .fin ((4 : ℕ) : ℚ) := rfl
  rw [h]
  norm_num

theorem applyFilters_minFour (l : List Review) :
    applyFilters isoRuntime l minFourQuery =
      .ok (l.filter (fun r => match r.ratingOverall with
        | some v => decide (v ≥ 4)
        | none => false)) := by
  rw [applyFilters_after_listing]
  have hl : filterByListing isoRuntime minFourQuery.listingId l = .ok l := rfl
  rw [hl]
  have h1 : filterByChannel isoRuntime minFourQuery.channel l = l := rfl
  have h2 : filterByType isoRuntime minFourQuery.type l = l := rfl
  have h3 : filterByApproved minFourQuery.approvedOnly l = l := rfl
  have h5 : ∀ l2, filterByDates isoRuntime minFourQuery.startDate minFourQuery.endDate l2 = l2 :=
    fun _ => rfl
  simp only [h1, h2, h3, h5]
  have hp : present minFourQuery.minRating = true := rfl
  have hm : minFourQuery.minRating.getD "" = "4" := rfl
  simp only [filterByMinRating, hp, hm, parseNumber_four, JsNumber.isNaN, geNumber]
  simp

/-- C6 at the example of the specification: on three canonical reviews,
`channel=airbnb` followed by `minRating=4` and the reverse order both leave the
one Airbnb review rated 4.5. -/
theorem applyFilters_comm_idem_example :
    (∀ r ∈ sampleReviews, ∃ s, r.listingId = .str s) ∧
    applyFilters isoRuntime sampleReviews airbnbQuery
      = .ok [reviewAirbnbThree, reviewAirbnbGood] ∧
    applyFilters isoRuntime [reviewAirbnbThree, reviewAirbnbGood] minFourQuery
      = .ok [reviewAirbnbGood] ∧
    applyFilters isoRuntime sampleReviews minFourQuery = .ok [reviewNine, reviewAirbnbGood] ∧
    applyFilters isoRuntime [reviewNine, reviewAirbnbGood] airbnbQuery
      = .ok [reviewAirbnbGood] ∧
    ∃ l1 l2 l12 : List Review,
      applyFilters isoRuntime sampleReviews airbnbQuery = .ok l1 ∧
      applyFilters isoRuntime sampleReviews minFourQuery = .ok l2 ∧
      applyFilters isoRuntime l1 minFourQuery = .ok l12 ∧
      applyFilters isoRuntime l2 airbnbQuery = .ok l12 ∧
      applyFilters isoRuntime l1 airbnbQuery = .ok l1 := by
  have hs : ∀ r ∈ sampleReviews, ∃ s, r.listingId = .str s := by
    intro r hr
    simp only [sampleReviews, List.mem_cons, List.mem_singleton, List.not_mem_nil, or_false] at hr
    rcases hr with h | h | h <;> exact ⟨"flat-a", by rw [h]; rfl⟩
  refine ⟨hs, rfl, ?_, ?_, rfl,
    applyFilters_comm_idem isoRuntime sampleReviews airbnbQuery minFourQuery hs⟩
  · rw [applyFilters_minFour]
    simp only [List.filter, reviewAirbnbThree, reviewAirbnbGood, reviewNine]
    norm_num
  · rw [applyFilters_minFour]
    simp only [List.filter, sampleReviews, reviewAirbnbThree, reviewAirbnbGood, reviewNine]
    norm_num

/-- Why C6 needs canonical reviews: on the review whose `listingId` is a number the
`listingId` query throws when it runs first and returns the empty list when
`approvedOnly=true` has emptied the list before. -/
theorem applyFilters_order_matters_off_model :
    applyFilters isoRuntime [reviewNumericListing] listingQuery = .error .typeError ∧
    applyFilters isoRuntime [reviewNumericListing] approvedOnlyQuery = .ok [] ∧
    applyFilters isoRuntime [] listingQuery = .ok [] :=
  ⟨rfl, rfl, rfl⟩

/-! ## C5: the totals count the whole normalised set -/

theorem getHostaway_ok (rt : Runtime) (raws : List JVal) (snapshot : Approvals) (query : Query)
    (resp : Response) (h : getHostaway rt raws snapshot query = .ok resp) :
    ∃ normalized filtered,
      mapE (fun raw => normalizeHostawayReview rt raw snapshot) raws = .ok normalized ∧
      applyFilters rt normalized query = .ok filtered ∧
      resp = {
        status := "success"
        count := filtered.length
        totals := {
          all := normalized.length
          approved := (normalized.filter (fun r => r.approved)).length
          byChannel := normalized.foldl
            (fun acc r => countKey acc (jsString rt (r.channel.or (.str "unknown")))) []
          byListing := normalized.foldl
            (fun acc r => countKey acc (jsString rt r.listingId)) [] }
        result := filtered } := by
  unfold getHostaway at h
  simp only [bind, Except.bind, pure, Except.pure] at h
  split at h
  · simp at h
  · rename_i normalized hn
    split at h
    · simp at h
    · rename_i filtered hf
      simp only [Except.ok.injEq] at h
      exact ⟨normalized, filtered, hn, hf, h.symm⟩

/-- C5: in every successful response of `GET /api/reviews/hostaway`, `totals.all` is
the number of normalised reviews and `totals.approved` the number of normalised
reviews with `approved` true, and the response to any other query over the same
raw records and snapshot carries the same totals. -/
theorem totals_independent_of_query (rt : Runtime) (raws : List JVal) (snapshot : Approvals)
    (query : Query) (resp : Response)
    (h : getHostaway rt raws snapshot query = .ok resp) :
    ∃ normalized,
      mapE (fun raw => normalizeHostawayReview rt raw snapshot) raws = .ok normalized ∧
      resp.totals.all = normalized.length ∧
      resp.totals.approved = normalized.countP (fun r => r.approved) ∧
      ∀ query2 resp2, getHostaway rt raws snapshot query2 = .ok resp2 →
        resp2.totals = resp.totals := by
  obtain ⟨normalized, filtered, hn, _, hresp⟩ := getHostaway_ok rt raws snapshot query resp h
  refine ⟨normalized, hn, ?_, ?_, ?_⟩
  · rw [hresp]
  · rw [hresp, List.countP_eq_length_filter]
  · intro query2 resp2 h2
    obtain ⟨normalized2, filtered2, hn2, _, hresp2⟩ :=
      getHostaway_ok rt raws snapshot query2 resp2 h2
    rw [hn] at hn2
    simp only [Except.ok.injEq] at hn2
    subst hn2
    rw [hresp, hresp2]

/-- C5 at one record: the query `channel=airbnb` returns no review, and the totals
still count the one normalised, approved review. -/
theorem totals_independent_of_query_example :
    ∃ resp, getHostaway isoRuntime [rawRatingNine] approvalsOne airbnbQuery = .ok resp ∧
      resp.count = 0 ∧ resp.totals.all = 1 ∧ resp.totals.approved = 1 ∧
      ∀ query2 resp2, getHostaway isoRuntime [rawRatingNine] approvalsOne query2 = .ok resp2 →
        resp2.totals = resp.totals := by
  have hget : getHostaway isoRuntime [rawRatingNine] approvalsOne airbnbQuery = .ok {
      status := "success"
      count := 0
      totals :=
        { all := 1, approved := 1, byChannel := [("direct", 1)], byListing := [("flat-a", 1)] }
      result := [] } := by
    simp only [getHostaway, mapE, normalize_rawRatingNine, bind, Except.bind, pure, Except.pure]
    rfl
  obtain ⟨normalized, _, _, _, hall⟩ :=
    totals_independent_of_query isoRuntime [rawRatingNine] approvalsOne airbnbQuery _ hget
  exact ⟨_, hget, rfl, rfl, rfl, hall⟩

/-! ## C7: a date that cannot be parsed -/

theorem toIsoDateTime_unparseable (rt : Runtime) (s : String) (hs : s ≠ "")
    (h1 : rt.parseDate (String.mk (replaceFirstSpace s.data) ++ "Z") = none)
    (h2 : rt.parseDate s = none) :
    toIsoDateTime rt (.str s) = .error .rangeError := by
  simp [toIsoDateTime, JVal.truthy, hs, h1, h2]

theorem normalize_throws_on_unparseable_date (rt : Runtime) (raw : JVal) (ap : Approvals)
    (s : String) (hs : s ≠ "")
    (hdate : (raw.field "submittedAt").or ((raw.field "created_at").or (raw.field "updated_at"))
      = .str s)
    (h1 : rt.parseDate (String.mk (replaceFirstSpace s.data) ++ "Z") = none)
    (h2 : rt.parseDate s = none) :
    ∀ rv, normalizeHostawayReview rt raw ap ≠ .ok rv := by
  intro rv h
  have hsub := (normalize_ok rt raw ap rv h).2.2.2.2.2.1
  rw [hdate, toIsoDateTime_unparseable rt s hs h1 h2] at hsub
  cases hsub

theorem getHostaway_fails_on_unparseable_date (rt : Runtime) (raws : List JVal)
    (ap : Approvals) (query : Query) (raw : JVal) (s : String) (hmem : raw ∈ raws)
    (hs : s ≠ "")
    (hdate : (raw.field "submittedAt").or ((raw.field "created_at").or (raw.field "updated_at"))
      = .str s)
    (h1 : rt.parseDate (String.mk (replaceFirstSpace s.data) ++ "Z") = none)
    (h2 : rt.parseDate s = none) :
    ∀ resp, getHostaway rt raws ap query ≠ .ok resp := by
  intro resp h
  obtain ⟨normalized, _, hn, _, _⟩ := getHostaway_ok rt raws ap query resp h
  exact mapE_error_of_mem (fun r => normalizeHostawayReview rt r ap) raws raw hmem
    (normalize_throws_on_unparseable_date rt raw ap s hs hdate h1 h2) normalized hn

/-- C7 fails on the code: the record dated `not a date` makes
`normalizeHostawayReview` throw a `RangeError`, and a batch that contains it makes
the whole route fail instead of returning one review per record. -/
theorem unparseable_date_throws :
    normalizeHostawayReview isoRuntime rawBadDate [] = .error .rangeError ∧
    getHostaway isoRuntime [rawRatingNine, rawBadDate] approvalsOne emptyQuery
      = .error .rangeError := by
  have hbad : ∀ ap, normalizeHostawayReview isoRuntime rawBadDate ap = .error .rangeError :=
    fun _ => rfl
  refine ⟨hbad [], ?_⟩
  simp only [getHostaway, mapE, normalize_rawRatingNine, hbad, bind, Except.bind]

/-! ## C8: the synthesised id -/

/-- C8 fails on the code: for the record without `id`, `reviewId` and `submittedAt`
that carries `created_at`, the review has `submittedAt` set from `created_at` while
its id ends in `null`, because the id reads `raw.submittedAt` alone. -/
theorem synthesized_id_ignores_created_at :
    ∃ rv, normalizeHostawayReview isoRuntime rawCreatedAtOnly [] = .ok rv ∧
      rv.listingId = .str "flat-a" ∧
      rv.submittedAt = some "2024-01-02T10:00:00.000Z" ∧
      rv.id = "flat-a-null" ∧
      rv.id ≠ "flat-a" ++ "-" ++ "2024-01-02T10:00:00.000Z" :=
  ⟨_, rfl, rfl, rfl, rfl, by decide⟩

/-! ## C10: a numeric listing id -/

/-- C10 fails on the code: the record whose `listingId` is the number 42 is
normalised to a review whose `listingId` is still that number, and both
`applyFilters` and the route throw a `TypeError` on the query `listingId=42`. -/
theorem numeric_listingId_breaks_filter :
    normalizeHostawayReview isoRuntime rawNumericListing [] = .ok reviewNumericListing ∧
    reviewNumericListing.listingId = .num 42 ∧
    applyFilters isoRuntime [reviewNumericListing] listingQuery = .error .typeError ∧
    getHostaway isoRuntime [rawNumericListing] [] listingQuery = .error .typeError :=
  ⟨rfl, rfl, rfl, rfl⟩

/-! ## C9: a second upsert without `listingId` -/

theorem lookup_setKey_self {α : Type} (m : List (String × α)) (key : String) (v : α) :
    lookup (setKey m key v) key = some v := by
  induction m with
  | nil => simp [setKey, lookup]
  | cons kv rest ih =>
    obtain ⟨k, w⟩ := kv
    by_cases hk : k = key
    · simp [setKey, lookup, hk]
    · simp [setKey, lookup, hk, ih]

theorem lookup_storeRecord_of_present (approvals : Approvals) (key : String)
    (old record : ApprovalRecord) (h : lookup approvals key = some old) :
    lookup (storeRecord approvals key record) key = some record := by
  unfold storeRecord
  rw [if_neg (by simp [h])]
  exact lookup_setKey_self approvals key record

theorem field_bool_is_obj (body : JVal) (key : String) (b : Bool)
    (h : body.field key = .bool b) : body.or (.obj []) = body := by
  cases body <;> first | rfl | simp [JVal.field] at h

/-- C9 as the code has it: when the approvals hold a record for `id` with
`approved = true` and `listingId = L`, a request with `approved = false` and no
`listingId` leaves a record for `id` with `approved = false`; through
`PATCH /api/reviews/:id/approve` its `listingId` is still `L`, through
`POST /api/reviews/approvals` (which needs a non-empty `reviewId`) its `listingId`
is `null`. -/
theorem second_upsert_without_listingId (rt : Runtime) (now : String) (approvals : Approvals)
    (id L : String) (old : ApprovalRecord) (patchBody postBody : JVal)
    (hold : lookup approvals id = some old)
    (happroved : old.approved = true)
    (hL : old.listingId = .str L)
    (hpatch : patchBody.field "approved" = .bool false)
    (hid : id ≠ "")
    (hreview : postBody.field "reviewId" = .str id)
    (hpost : postBody.field "approved" = .bool false)
    (hlisting : postBody.field "listingId" = .undefined) :
    (∃ store record, patchApprove now approvals id patchBody = .success store record ∧
      lookup store id = some record ∧ record.approved = false ∧ record.listingId = .str L) ∧
    (∃ store record, postApproval rt now approvals postBody = .success store record ∧
      lookup store id = some record ∧ record.approved = false ∧ record.listingId = .null ∧
      record.listingId ≠ old.listingId) := by
  have hb1 := field_bool_is_obj patchBody "approved" false hpatch
  have hb2 := field_bool_is_obj postBody "approved" false hpost
  constructor
  · refine ⟨storeRecord approvals id (mergeRecord (some old) false now),
      mergeRecord (some old) false now, ?_, ?_, rfl, hL⟩
    · simp only [patchApprove, hb1]
      simp [hpatch, JVal.asBool, hold]
    · exact lookup_storeRecord_of_present approvals id old _ hold
  · refine ⟨storeRecord approvals id { approved := false, listingId := .null, updatedAt := now },
      { approved := false, listingId := .null, updatedAt := now }, ?_, ?_, rfl, rfl, ?_⟩
    · simp only [postApproval, hb2]
      simp [hpost, hreview, hlisting, JVal.asBool, JVal.truthy, hid, jsString, JVal.or]
    · exact lookup_storeRecord_of_present approvals id old _ hold
    · rw [hL]
      intro h
      cases h

/-- C9 fails as stated for the `POST` route: after review `123` is approved with
listing `flat-a`, a second `POST` with `approved: false` and no `listingId`
leaves the record with `listingId` null. -/
theorem post_upsert_drops_listingId :
    ∃ store1 record1 store2 record2,
      postApproval isoRuntime "2024-02-01T00:00:00.000Z" [] bodyApprove
        = .success store1 record1 ∧
      lookup store1 "123" = some record1 ∧ record1.approved = true ∧
      record1.listingId = .str "flat-a" ∧
      postApproval isoRuntime "2024-02-02T00:00:00.000Z" store1 bodyWithdraw
        = .success store2 record2 ∧
      lookup store2 "123" = some record2 ∧ record2.approved = false ∧
      record2.listingId = .null ∧ record2.listingId ≠ .str "flat-a" :=
  ⟨_, _, _, _, rfl, rfl, rfl, rfl, rfl, rfl, rfl, rfl, fun h => by cases h⟩

/-- C9 as the code has it, at an approved record of listing `flat-a`: the `PATCH`
route keeps `flat-a`, the `POST` route stores null. -/
theorem second_upsert_without_listingId_example :
    (∃ store record,
      patchApprove "2024-02-02T00:00:00.000Z" approvalsFlatA "123" bodyWithdraw
        = .success store record ∧
      lookup store "123" = some record ∧ record.approved = false ∧
      record.listingId = .str "flat-a") ∧
    (∃ store record,
      postApproval isoRuntime "2024-02-02T00:00:00.000Z" approvalsFlatA bodyWithdraw
        = .success store record ∧
      lookup store "123" = some record ∧ record.approved = false ∧
      record.listingId = .null ∧ record.listingId ≠ recordFlatA.listingId) :=
  second_upsert_without_listingId isoRuntime "2024-02-02T00:00:00.000Z" approvalsFlatA
    "123" "flat-a" recordFlatA bodyWithdraw bodyWithdraw rfl rfl rfl rfl (by decide) rfl rfl rfl

/-! ## Double arithmetic -/

theorem log_two_eq (x : ℚ) (k : ℤ) (h1 : (2 : ℚ) ^ k ≤ x) (h2 : x < (2 : ℚ) ^ (k + 1)) :
    Int.log 2 x = k := by
  have hx : 0 < x := lt_of_lt_of_le (by positivity) h1
  have h2c : x < ((2 : ℕ) : ℚ) ^ (k + 1) := by exact_mod_cast h2
  have h1c : ((2 : ℕ) : ℚ) ^ k ≤ x := by exact_mod_cast h1
  have hlt := (Int.lt_zpow_iff_log_lt (by norm_num : 1 < 2) hx).mp h2c
  have hle := (Int.zpow_le_iff_le_log (by norm_num : 1 < 2) hx).mp h1c
  omega

theorem ulpExponent_of (x : ℚ) (k : ℤ) (hk : -1022 ≤ k) (h1 : (2 : ℚ) ^ k ≤ |x|)
    (h2 : |x| < (2 : ℚ) ^ (k + 1)) : ulpExponent x = k - 52 := by
  unfold ulpExponent
  rw [log_two_eq |x| k h1 h2]
  omega

theorem toDouble_eval (x y : ℚ) (k n : ℤ) (hk : -1022 ≤ k) (h1 : (2 : ℚ) ^ k ≤ |x|)
    (h2 : |x| < (2 : ℚ) ^ (k + 1))
    (hn : roundHalfEven (x / (2 : ℚ) ^ (k - 52)) = n)
    (hy : (n : ℚ) * (2 : ℚ) ^ (k - 52) = y)
    (hlt : y < (2 : ℚ) ^ (1024 : ℕ)) (hgt : -(2 : ℚ) ^ (1024 : ℕ) < y) :
    toDouble x = .fin y := by
  unfold toDouble
  simp only [ulpExponent_of x k hk h1 h2, hn, hy]
  rw [if_neg (not_le.mpr hlt), if_neg (not_le.mpr hgt)]

theorem roundHalfEven_near (z : ℚ) : |(roundHalfEven z : ℚ) - z| ≤ 1 / 2 := by
  have h1 := Int.floor_le z
  have h2 := Int.lt_floor_add_one z
  unfold roundHalfEven
  rw [abs_le]
  split_ifs with ha hb hc
  · constructor <;> linarith
  · push_cast
    constructor <;> linarith
  · constructor <;> linarith
  · push_cast
    constructor <;> linarith

theorem roundHalfEven_nonneg (z : ℚ) (hz : 0 ≤ z) : 0 ≤ roundHalfEven z := by
  have h0 : (0 : ℤ) ≤ ⌊z⌋ := Int.floor_nonneg.mpr hz
  unfold roundHalfEven
  split_ifs <;> omega

theorem toDouble_zero : toDouble 0 = .fin 0 := by
  unfold toDouble roundHalfEven
  norm_num

theorem two_zpow_ulpExponent_le (x : ℚ) (hx : x ≠ 0) :
    (2 : ℚ) ^ (ulpExponent x - 1) ≤ |x| / 2 ^ (53 : ℕ) + (2 : ℚ) ^ (-1075 : ℤ) := by
  have hpos : 0 < |x| := abs_pos.mpr hx
  have hlog : ((2 : ℕ) : ℚ) ^ Int.log 2 |x| ≤ |x| := Int.zpow_log_le_self (by norm_num) hpos
  have hlog2 : (2 : ℚ) ^ Int.log 2 |x| ≤ |x| := by exact_mod_cast hlog
  unfold ulpExponent
  rcases le_total (Int.log 2 |x| - 52) (-1074) with hc | hc
  · rw [max_eq_right hc]
    have : (0 : ℚ) ≤ |x| / 2 ^ (53 : ℕ) := by positivity
    have h2 : ((-1074 : ℤ) - 1) = (-1075 : ℤ) := by norm_num
    rw [h2]
    linarith
  · rw [max_eq_left hc]
    have h3 : (2 : ℚ) ^ (Int.log 2 |x| - 52 - 1) = (2 : ℚ) ^ Int.log 2 |x| / 2 ^ (53 : ℕ) := by
      rw [show Int.log 2 |x| - 52 - 1 = Int.log 2 |x| - 53 by ring, zpow_sub₀ (by norm_num)]
      norm_num
    rw [h3]
    have h4 : (2 : ℚ) ^ Int.log 2 |x| / 2 ^ (53 : ℕ) ≤ |x| / 2 ^ (53 : ℕ) :=
      div_le_div_of_nonneg_right hlog2 (by positivity)
    have h5 : (0 : ℚ) < (2 : ℚ) ^ (-1075 : ℤ) := by positivity
    linarith

theorem toDouble_near (x : ℚ) (hx : |x| < (2 : ℚ) ^ (1023 : ℕ)) :
    ∃ y, toDouble x = .fin y ∧
      |y - x| ≤ |x| / 2 ^ (53 : ℕ) + (2 : ℚ) ^ (-1075 : ℤ) ∧ (0 ≤ x → 0 ≤ y) := by
  by_cases h0 : x = 0
  · subst h0
    refine ⟨0, toDouble_zero, ?_, fun _ => le_refl _⟩
    simp only [sub_zero, abs_zero, zero_div, zero_add]
    positivity
  · have hpow : (0 : ℚ) < (2 : ℚ) ^ ulpExponent x := by positivity
    have hnear := roundHalfEven_near (x / (2 : ℚ) ^ ulpExponent x)
    have herr : |(roundHalfEven (x / (2 : ℚ) ^ ulpExponent x) : ℚ) * (2 : ℚ) ^ ulpExponent x - x|
        ≤ (2 : ℚ) ^ (ulpExponent x - 1) := by
      have hx2 : x = x / (2 : ℚ) ^ ulpExponent x * (2 : ℚ) ^ ulpExponent x := by
        field_simp
      have hsplit : (roundHalfEven (x / (2 : ℚ) ^ ulpExponent x) : ℚ) * (2 : ℚ) ^ ulpExponent x - x
          = ((roundHalfEven (x / (2 : ℚ) ^ ulpExponent x) : ℚ) - x / (2 : ℚ) ^ ulpExponent x)
            * (2 : ℚ) ^ ulpExponent x := by
        rw [sub_mul]
        congr 1
      rw [hsplit, abs_mul, abs_of_pos hpow, zpow_sub₀ (by norm_num : (2 : ℚ) ≠ 0), zpow_one]
      calc |(roundHalfEven (x / (2 : ℚ) ^ ulpExponent x) : ℚ) - x / (2 : ℚ) ^ ulpExponent x|
            * (2 : ℚ) ^ ulpExponent x
          ≤ 1 / 2 * (2 : ℚ) ^ ulpExponent x := mul_le_mul_of_nonneg_right hnear hpow.le
        _ = (2 : ℚ) ^ ulpExponent x / 2 := by ring
    have hbound := two_zpow_ulpExponent_le x h0
    have herr2 := le_trans herr hbound
    have hsmall : |x| / 2 ^ (53 : ℕ) + (2 : ℚ) ^ (-1075 : ℤ) < (2 : ℚ) ^ (1023 : ℕ) := by
      have h1 : |x| / 2 ^ (53 : ℕ) < (2 : ℚ) ^ (1023 : ℕ) / 2 ^ (53 : ℕ) :=
        div_lt_div_of_pos_right hx (by positivity)
      have h2 : (2 : ℚ) ^ (-1075 : ℤ) ≤ 1 := by
        rw [zpow_neg]
        apply inv_le_one_of_one_le₀
        exact one_le_zpow₀ (by norm_num) (by norm_num)
      have h3 : (2 : ℚ) ^ (1023 : ℕ) / 2 ^ (53 : ℕ) + 1 ≤ (2 : ℚ) ^ (1023 : ℕ) := by
        norm_num
      linarith
    have habs := abs_le.mp herr2
    have hxabs := abs_le.mp (le_of_lt hx)
    have hdouble : (2 : ℚ) ^ (1024 : ℕ) = 2 * (2 : ℚ) ^ (1023 : ℕ) := by norm_num
    refine ⟨(roundHalfEven (x / (2 : ℚ) ^ ulpExponent x) : ℚ) * (2 : ℚ) ^ ulpExponent x, ?_,
      herr2, ?_⟩
    · unfold toDouble
      simp only
      rw [if_neg, if_neg]
      · rw [not_le, hdouble]
        linarith [habs.1, hxabs.1]
      · rw [not_le, hdouble]
        linarith [habs.2, hxabs.2]
    · intro hx0
      have hz : 0 ≤ x / (2 : ℚ) ^ ulpExponent x := div_nonneg hx0 hpow.le
      have hr := roundHalfEven_nonneg _ hz
      have hr2 : (0 : ℚ) ≤ (roundHalfEven (x / (2 : ℚ) ^ ulpExponent x) : ℚ) := by
        exact_mod_cast hr
      exact mul_nonneg hr2 hpow.le

/-! ## C2: a direct rating in double arithmetic -/

theorem computeOverallRatingDouble_of_num (review : JVal) (r : ℚ)
    (h : review.field "rating" = .num r) :
    computeOverallRatingDouble review =
      .ok (some (if r > 5 then
        ((((JsNumber.fin r).divPositive 2).mulPositive 10).round).divPositive 10
        else .fin r)) := by
  have hn := field_num_not_nullish review "rating" r h
  simp [computeOverallRatingDouble, JVal.get, hn, h, bind, Except.bind, pure, Except.pure]

theorem mathRound_near (p : ℚ) : |(mathRound p : ℚ) - p| ≤ 1 / 2 := by
  unfold mathRound
  have h1 := Int.floor_le (p + 1 / 2)
  have h2 := Int.lt_floor_add_one (p + 1 / 2)
  rw [abs_le]
  constructor <;> linarith

theorem direct_chain_near (r : ℚ) (h5 : 5 < r) (hr : r < (2 : ℚ) ^ (1020 : ℕ)) :
    ∃ k : ℤ, ((((JsNumber.fin r).divPositive 2).mulPositive 10).round).divPositive 10
        = toDouble ((k : ℚ) / 10) ∧
      |(k : ℚ) / 10 - r / 2| ≤ 1 / 20 + r / 2 ^ (52 : ℕ) := by
  have hη : (2 : ℚ) ^ (-1075 : ℤ) ≤ 1 / 2 ^ (60 : ℕ) := by
    rw [zpow_neg, one_div]
    apply inv_anti₀ (by positivity)
    have : (2 : ℚ) ^ (60 : ℕ) = (2 : ℚ) ^ (60 : ℤ) := by norm_cast
    rw [this]
    exact zpow_le_zpow_right₀ (by norm_num) (by norm_num)
  have hη0 : (0 : ℚ) < (2 : ℚ) ^ (-1075 : ℤ) := by positivity
  have hbig : (2 : ℚ) ^ (1023 : ℕ) = 8 * (2 : ℚ) ^ (1020 : ℕ) := by norm_num
  have hbig1 : (1 : ℚ) ≤ (2 : ℚ) ^ (1020 : ℕ) := one_le_pow₀ (by norm_num)
  have hrpos : 0 < r := by linarith
  -- the half
  have hx1 : |r / 2| < (2 : ℚ) ^ (1023 : ℕ) := by
    rw [abs_of_pos (by linarith)]
    linarith
  obtain ⟨h, hh, hherr, hhpos⟩ := toDouble_near (r / 2) hx1
  rw [abs_of_pos (by linarith : (0 : ℚ) < r / 2)] at hherr
  have hh0 : 0 ≤ h := hhpos (by linarith)
  have hhabs := abs_le.mp hherr
  have hu : r / 2 / 2 ^ (53 : ℕ) ≤ r / 2 := by
    apply div_le_self (by linarith)
    exact one_le_pow₀ (by norm_num)
  have hhle : h ≤ r + 1 := by linarith [hhabs.2]
  -- ten times the half
  have hx2 : |h * 10| < (2 : ℚ) ^ (1023 : ℕ) := by
    rw [abs_of_nonneg (by linarith)]
    linarith
  obtain ⟨p, hp, hperr, _⟩ := toDouble_near (h * 10) hx2
  rw [abs_of_nonneg (by linarith : (0 : ℚ) ≤ h * 10)] at hperr
  have hpabs := abs_le.mp hperr
  have hk := abs_le.mp (mathRound_near p)
  refine ⟨mathRound p, ?_, ?_⟩
  · simp only [JsNumber.divPositive, JsNumber.mulPositive, JsNumber.round, hh, hp]
  · have e1 : r / 2 / 2 ^ (53 : ℕ) = r / 2 ^ (54 : ℕ) := by
      rw [div_div]
      norm_num
    have e2 : h * 10 / 2 ^ (53 : ℕ) = 10 * (h / 2 ^ (53 : ℕ)) := by ring
    have e3 : h / 2 ^ (53 : ℕ) ≤ (r + 1) / 2 ^ (53 : ℕ) :=
      div_le_div_of_nonneg_right hhle (by positivity)
    have e4 : (r + 1) / 2 ^ (53 : ℕ) = r / 2 ^ (53 : ℕ) + 1 / 2 ^ (53 : ℕ) := by ring
    have e5 : r / 2 ^ (54 : ℕ) = r / 2 ^ (52 : ℕ) / 4 := by
      rw [div_div]
      norm_num
    have e6 : r / 2 ^ (53 : ℕ) = r / 2 ^ (52 : ℕ) / 2 := by
      rw [div_div]
      norm_num
    have e7 : 5 / 2 ^ (52 : ℕ) < r / 2 ^ (52 : ℕ) :=
      div_lt_div_of_pos_right h5 (by positivity)
    have e8 : (1 : ℚ) / 2 ^ (60 : ℕ) = 1 / 2 ^ (52 : ℕ) / 256 := by norm_num
    have e9 : (1 : ℚ) / 2 ^ (53 : ℕ) = 1 / 2 ^ (52 : ℕ) / 2 := by norm_num
    have e10 : (5 : ℚ) / 2 ^ (52 : ℕ) = 5 * (1 / 2 ^ (52 : ℕ)) := by ring
    have e11 : (0 : ℚ) < 1 / 2 ^ (52 : ℕ) := by positivity
    rw [e1] at hhabs
    rw [e2] at hpabs
    rw [abs_le]
    constructor <;> linarith [hhabs.1, hhabs.2, hpabs.1, hpabs.2, hk.1, hk.2]

/-- C2 as the code has it, in double arithmetic: when the `rating` field of a raw
review is `r`, `computeOverallRating` returns `r` itself if `r ≤ 5`; if `r > 5`
(and below `2 ^ 1020`) it returns the double nearest to `k / 10` for an integer
`k` with `k / 10` within `1 / 20 + r / 2 ^ 52` of `r / 2`; and when halving and
the product by 10 are exact (`r / 2` and `r / 2 * 10` are doubles), `k / 10` is
`r / 2` rounded to one decimal, a tie going up. -/
theorem computeOverallRatingDouble_direct (review : JVal) (r : ℚ)
    (h : review.field "rating" = .num r) :
    (r ≤ 5 → computeOverallRatingDouble review = .ok (some (.fin r))) ∧
    (5 < r → r < (2 : ℚ) ^ (1020 : ℕ) →
      ∃ k : ℤ, computeOverallRatingDouble review = .ok (some (toDouble ((k : ℚ) / 10))) ∧
        |(k : ℚ) / 10 - r / 2| ≤ 1 / 20 + r / 2 ^ (52 : ℕ)) ∧
    (5 < r → isDouble (r / 2) → isDouble (r / 2 * 10) →
      ∃ k : ℤ, computeOverallRatingDouble review = .ok (some (toDouble ((k : ℚ) / 10))) ∧
        r / 2 - 1 / 20 < (k : ℚ) / 10 ∧ (k : ℚ) / 10 ≤ r / 2 + 1 / 20) := by
  have hc := computeOverallRatingDouble_of_num review r h
  refine ⟨?_, ?_, ?_⟩
  · intro hle
    rw [hc, if_neg (not_lt.mpr hle)]
  · intro h5 hr
    obtain ⟨k, hk, hbound⟩ := direct_chain_near r h5 hr
    exact ⟨k, by rw [hc, if_pos h5, hk], hbound⟩
  · intro h5 hhalf hten
    refine ⟨mathRound (r / 2 * 10), ?_, mathRound_tenth_bounds (r / 2)⟩
    unfold isDouble at hhalf hten
    rw [hc, if_pos h5]
    simp only [JsNumber.divPositive, JsNumber.mulPositive, JsNumber.round, hhalf, hten]

theorem toDouble_half_fivePointOne :
    toDouble (2871044762448691 / 562949953421312 / 2)
      = .fin (2871044762448691 / 1125899906842624) := by
  refine toDouble_eval _ _ 1 5742089524897382 (by norm_num) (by norm_num [abs_of_pos])
    (by norm_num [abs_of_pos]) ?_ (by norm_num) (by norm_num) (by norm_num)
  unfold roundHalfEven
  norm_num

theorem toDouble_ten_halves_fivePointOne :
    toDouble (2871044762448691 / 1125899906842624 * 10) = .fin (51 / 2) := by
  refine toDouble_eval _ _ 4 7177611906121728 (by norm_num) (by norm_num [abs_of_pos])
    (by norm_num [abs_of_pos]) ?_ (by norm_num) (by norm_num) (by norm_num)
  unfold roundHalfEven
  norm_num

theorem toDouble_twentySix_tenths :
    toDouble (((26 : ℤ) : ℚ) / 10) = .fin (5854679515581645 / 2251799813685248) := by
  refine toDouble_eval _ _ 1 5854679515581645 (by norm_num) (by norm_num [abs_of_pos])
    (by norm_num [abs_of_pos]) ?_ (by norm_num) (by norm_num) (by norm_num)
  unfold roundHalfEven
  norm_num

/-- C2 fails as stated: for the rating that is the double nearest to 5.1, which is
below 5.1, half the rating rounded to one decimal is 2.5, and the code returns
the double nearest to 2.6, because the double product by 10 is exactly 25.5. -/
theorem direct_rating_rounds_to_other_tenth :
    computeOverallRatingDouble rawFivePointOne
      = .ok (some (.fin (5854679515581645 / 2251799813685248))) ∧
    toDouble (((26 : ℤ) : ℚ) / 10) = .fin (5854679515581645 / 2251799813685248) ∧
    (2871044762448691 / 562949953421312 : ℚ) / 2 - 1 / 20 < ((25 : ℤ) : ℚ) / 10 ∧
    (((25 : ℤ) : ℚ) / 10 ≤ (2871044762448691 / 562949953421312 : ℚ) / 2 + 1 / 20) ∧
    toDouble (((25 : ℤ) : ℚ) / 10) = .fin (5 / 2) ∧
    JsNumber.fin (5854679515581645 / 2251799813685248) ≠ .fin (5 / 2) := by
  have hfield : rawFivePointOne.field "rating" = .num (2871044762448691 / 562949953421312) := rfl
  refine ⟨?_, toDouble_twentySix_tenths, by norm_num, by norm_num, ?_, ?_⟩
  · rw [computeOverallRatingDouble_of_num rawFivePointOne _ hfield, if_pos (by norm_num)]
    simp only [JsNumber.divPositive, JsNumber.mulPositive, JsNumber.round,
      toDouble_half_fivePointOne, toDouble_ten_halves_fivePointOne]
    have hround : mathRound (51 / 2) = 26 := by
      unfold mathRound
      norm_num
    rw [hround, toDouble_twentySix_tenths]
  · refine toDouble_eval _ _ 1 5629499534213120 (by norm_num) (by norm_num [abs_of_pos])
      (by norm_num [abs_of_pos]) ?_ (by norm_num) (by norm_num) (by norm_num)
    unfold roundHalfEven
    norm_num
  · intro h
    injection h with h
    norm_num at h

theorem isDouble_nine_halves : isDouble (9 / 2) ∧ isDouble (9 / 2 * 10) := by
  unfold isDouble
  constructor
  · refine toDouble_eval _ _ 2 5066549580791808 (by norm_num) (by norm_num [abs_of_pos])
      (by norm_num [abs_of_pos]) ?_ (by norm_num) (by norm_num) (by norm_num)
    unfold roundHalfEven
    norm_num
  · refine toDouble_eval _ _ 5 6333186975989760 (by norm_num) (by norm_num [abs_of_pos])
      (by norm_num [abs_of_pos]) ?_ (by norm_num) (by norm_num) (by norm_num)
    unfold roundHalfEven
    norm_num

/-- C2 as the code has it, at the rating 9 of the specification: the result is
4.5, and halving 9 and multiplying by 10 are exact. -/
theorem computeOverallRatingDouble_direct_nine :
    rawRatingNine.field "rating" = .num 9 ∧
    computeOverallRatingDouble rawRatingNine = .ok (some (.fin (9 / 2))) ∧
    isDouble (9 / 2) ∧ isDouble (9 / 2 * 10) ∧
    ∃ k : ℤ, computeOverallRatingDouble rawRatingNine = .ok (some (toDouble ((k : ℚ) / 10))) ∧
      (9 : ℚ) / 2 - 1 / 20 < (k : ℚ) / 10 ∧ (k : ℚ) / 10 ≤ (9 : ℚ) / 2 + 1 / 20 := by
  have hfield : rawRatingNine.field "rating" = .num 9 := rfl
  have hthm := computeOverallRatingDouble_direct rawRatingNine 9 hfield
  refine ⟨hfield, ?_, isDouble_nine_halves.1, isDouble_nine_halves.2,
    hthm.2.2 (by norm_num) isDouble_nine_halves.1 isDouble_nine_halves.2⟩
  obtain ⟨k, hk, hbound⟩ := hthm.2.1 (by norm_num) (by norm_num)
  have hb := abs_le.mp hbound
  have hsmall : (9 : ℚ) / 2 ^ (52 : ℕ) < 1 / 100 := by norm_num
  have h1 : (44 : ℚ) < (k : ℚ) := by linarith [hb.1]
  have h2 : (k : ℚ) < (46 : ℚ) := by linarith [hb.2]
  have h3 : (44 : ℤ) < k := by exact_mod_cast h1
  have h4 : k < (46 : ℤ) := by exact_mod_cast h2
  have h5 : k = 45 := by omega
  have ht : toDouble (((45 : ℤ) : ℚ) / 10) = .fin (9 / 2) := by
    refine toDouble_eval _ _ 2 5066549580791808 (by norm_num) (by norm_num [abs_of_pos])
      (by norm_num [abs_of_pos]) ?_ (by norm_num) (by norm_num) (by norm_num)
    unfold roundHalfEven
    norm_num
  rw [hk, h5, ht]

theorem computeOverallRatingDouble_overflow (review : JVal) (r h : ℚ)
    (hfield : review.field "rating" = .num r) (h5 : 5 < r)
    (hhalf : toDouble (r / 2) = .fin h) (hten : toDouble (h * 10) = .posInf) :
    computeOverallRatingDouble review = .ok (some .posInf) := by
  rw [computeOverallRatingDouble_of_num review r hfield, if_pos h5]
  simp only [JsNumber.divPositive, JsNumber.mulPositive, JsNumber.round, hhalf, hten]

theorem toDouble_half_huge :
    toDouble ((2 : ℚ) ^ (1022 : ℕ) / 2) = .fin ((2 : ℚ) ^ (1021 : ℕ)) := by
  refine toDouble_eval _ _ 1021 4503599627370496 (by norm_num) (by norm_num [abs_of_pos])
    (by norm_num [abs_of_pos]) ?_ (by norm_num) (by norm_num) (by norm_num)
  unfold roundHalfEven
  norm_num

theorem toDouble_ten_halves_huge : toDouble ((2 : ℚ) ^ (1021 : ℕ) * 10) = .posInf := by
  have he : ulpExponent ((2 : ℚ) ^ (1021 : ℕ) * 10) = 972 := by
    rw [ulpExponent_of _ 1024 (by norm_num)] <;> norm_num [abs_of_pos]
  have hn : roundHalfEven ((2 : ℚ) ^ (1021 : ℕ) * 10 / (2 : ℚ) ^ (972 : ℤ))
      = 5629499534213120 := by
    unfold roundHalfEven
    norm_num
  unfold toDouble
  simp only [he, hn]
  rw [if_pos (by norm_num)]

/-- Beyond the range of C2: the rating `2 ^ 1022` is a double, ten times its half
is not below `2 ^ 1024`, and the code returns `Infinity`. -/
theorem direct_rating_overflows :
    computeOverallRatingDouble rawHugeRating = .ok (some .posInf) :=
  computeOverallRatingDouble_overflow rawHugeRating ((2 : ℚ) ^ (1022 : ℕ))
    ((2 : ℚ) ^ (1021 : ℕ))
    (by simp only [rawHugeRating, JVal.field, lookup]; simp)
    (by norm_num) toDouble_half_huge toDouble_ten_halves_huge

/-! ## C3: category ratings in double arithmetic -/

theorem computeOverallRatingDouble_of_categories (review : JVal) (cs : List JVal)
    (qs : List ℚ)
    (hrating : ∀ r, review.field "rating" ≠ .num r)
    (hcat : review.field "reviewCategory" = .arr cs)
    (hne : cs ≠ [])
    (hnum : List.Forall₂ (fun c q => c.field "rating" = JVal.num q) cs qs) :
    computeOverallRatingDouble review =
      .ok (some ((((((qs.foldl (fun a b => a.addFinite b) (JsNumber.fin 0)).divPositive
        (qs.length : ℚ)).divPositive 2).mulPositive 10).round).divPositive 10)) := by
  have hn := field_arr_not_nullish review "reviewCategory" cs hcat
  have hmap := mapE_categoryValue cs qs hnum
  have hlen : qs.length ≠ 0 := by
    have := hnum.length_eq
    intro h0
    rw [h0] at this
    exact hne (List.length_eq_zero.mp this)
  have hfm : List.filterMap id (qs.map some) = qs := by
    induction qs with
    | nil => rfl
    | cons q rest ih => simp [List.filterMap_cons]
  cases cs with
  | nil => exact absurd rfl hne
  | cons c rest =>
    unfold computeOverallRatingDouble
    simp only [JVal.get, hn, bind, Except.bind, pure, Except.pure]
    cases hr : review.field "rating" with
    | num r => exact absurd hr (hrating r)
    | undefined => simp [hcat, hmap, hfm, hlen]
    | null => simp [hcat, hmap, hfm, hlen]
    | bool b => simp [hcat, hmap, hfm, hlen]
    | str s => simp [hcat, hmap, hfm, hlen]
    | arr xs => simp [hcat, hmap, hfm, hlen]
    | obj kvs => simp [hcat, hmap, hfm, hlen]

theorem foldl_addFinite_near (B : ℚ) (hB0 : 0 ≤ B) (hB : B < (2 : ℚ) ^ (1023 : ℕ))
    (vs : List ℚ) (hv : ∀ v ∈ vs, 0 ≤ v) :
    ∀ a A : ℚ, 0 ≤ a → 0 ≤ A →
      A + vs.sum + |a - A| + (vs.length : ℚ) * (B / 2 ^ (53 : ℕ) + (2 : ℚ) ^ (-1075 : ℤ)) ≤ B →
      ∃ s, vs.foldl (fun x y => x.addFinite y) (JsNumber.fin a) = .fin s ∧ 0 ≤ s ∧
        |s - (A + vs.sum)|
          ≤ |a - A| + (vs.length : ℚ) * (B / 2 ^ (53 : ℕ) + (2 : ℚ) ^ (-1075 : ℤ)) := by
  induction vs with
  | nil =>
    intro a A ha _ _
    refine ⟨a, rfl, ha, ?_⟩
    simp
  | cons v rest ih =>
    intro a A ha hA hbound
    have hv0 : 0 ≤ v := hv v (List.mem_cons_self _ _)
    have hrest : ∀ w ∈ rest, 0 ≤ w := fun w hw => hv w (List.mem_cons_of_mem _ hw)
    have hsum0 : 0 ≤ rest.sum := List.sum_nonneg hrest
    have hlen0 : (0 : ℚ) ≤ (rest.length : ℚ) := Nat.cast_nonneg _
    have hη0 : (0 : ℚ) < (2 : ℚ) ^ (-1075 : ℤ) := by positivity
    have hc0 : 0 ≤ B / 2 ^ (53 : ℕ) + (2 : ℚ) ^ (-1075 : ℤ) :=
      add_nonneg (div_nonneg hB0 (by positivity)) hη0.le
    have hprod0 : 0 ≤ (rest.length : ℚ) * (B / 2 ^ (53 : ℕ) + (2 : ℚ) ^ (-1075 : ℤ)) :=
      mul_nonneg hlen0 hc0
    have hexpand : (((v :: rest).length : ℕ) : ℚ) * (B / 2 ^ (53 : ℕ) + (2 : ℚ) ^ (-1075 : ℤ))
        = (rest.length : ℚ) * (B / 2 ^ (53 : ℕ) + (2 : ℚ) ^ (-1075 : ℤ))
          + (B / 2 ^ (53 : ℕ) + (2 : ℚ) ^ (-1075 : ℤ)) := by
      simp only [List.length_cons]
      push_cast
      ring
    rw [hexpand, List.sum_cons] at hbound ⊢
    have habs0 : 0 ≤ |a - A| := abs_nonneg _
    have haA := abs_le.mp (le_refl |a - A|)
    have hx0 : 0 ≤ a + v := by linarith
    have hxB : a + v ≤ B := by linarith [haA.1, haA.2]
    have hxlt : |a + v| < (2 : ℚ) ^ (1023 : ℕ) := by
      rw [abs_of_nonneg hx0]
      linarith
    obtain ⟨y, hy, hyerr, hypos⟩ := toDouble_near (a + v) hxlt
    rw [abs_of_nonneg hx0] at hyerr
    have hy0 : 0 ≤ y := hypos hx0
    have hstep : (a + v) / 2 ^ (53 : ℕ) ≤ B / 2 ^ (53 : ℕ) :=
      div_le_div_of_nonneg_right hxB (by positivity)
    have hyA : |y - (A + v)| ≤ |a - A| + (B / 2 ^ (53 : ℕ) + (2 : ℚ) ^ (-1075 : ℤ)) := by
      have h1 : y - (A + v) = (y - (a + v)) + (a - A) := by ring
      rw [h1]
      calc |y - (a + v) + (a - A)| ≤ |y - (a + v)| + |a - A| := abs_add _ _
        _ ≤ |a - A| + (B / 2 ^ (53 : ℕ) + (2 : ℚ) ^ (-1075 : ℤ)) := by linarith
    have hbound2 : (A + v) + rest.sum + |y - (A + v)|
        + (rest.length : ℚ) * (B / 2 ^ (53 : ℕ) + (2 : ℚ) ^ (-1075 : ℤ)) ≤ B := by
      linarith
    obtain ⟨s, hs, hs0, hserr⟩ := ih hrest y (A + v) hy0 (by linarith) hbound2
    refine ⟨s, ?_, hs0, ?_⟩
    · simp only [List.foldl, JsNumber.addFinite, hy]
      exact hs
    · have h2 : A + (v + rest.sum) = A + v + rest.sum := by ring
      rw [h2]
      linarith

theorem categories_chain_near (qs : List ℚ) (hne : qs.length ≠ 0)
    (hlen : qs.length < 2 ^ 32) (hv : ∀ q ∈ qs, 0 ≤ q ∧ q ≤ 10) :
    ∃ k : ℤ, (((((qs.foldl (fun a b => a.addFinite b) (JsNumber.fin 0)).divPositive
        (qs.length : ℚ)).divPositive 2).mulPositive 10).round).divPositive 10
        = toDouble ((k : ℚ) / 10) ∧
      |(k : ℚ) / 10 - qs.sum / (qs.length : ℚ) / 2| ≤ 1 / 20 + 1 / 100000 := by
  have hη0 : (0 : ℚ) < (2 : ℚ) ^ (-1075 : ℤ) := by positivity
  have hη : (2 : ℚ) ^ (-1075 : ℤ) ≤ 1 / 2 ^ (60 : ℕ) := by
    rw [zpow_neg, one_div]
    apply inv_anti₀ (by positivity)
    have : (2 : ℚ) ^ (60 : ℕ) = (2 : ℚ) ^ (60 : ℤ) := by norm_cast
    rw [this]
    exact zpow_le_zpow_right₀ (by norm_num) (by norm_num)
  have hη2 : (1 : ℚ) / 2 ^ (60 : ℕ) ≤ 1 / 1000000000000000 := by norm_num
  have hu : (1 : ℚ) / 2 ^ (53 : ℕ) ≤ 1 / 1000000000000000 := by norm_num
  have hu0 : (0 : ℚ) < 1 / 2 ^ (53 : ℕ) := by positivity
  have hN1 : (1 : ℚ) ≤ (qs.length : ℚ) := by
    exact_mod_cast Nat.one_le_iff_ne_zero.mpr hne
  have hN2 : (qs.length : ℚ) ≤ 2 ^ (32 : ℕ) := by exact_mod_cast hlen.le
  have hNpos : (0 : ℚ) < (qs.length : ℚ) := by linarith
  have hsum := sum_range qs hv
  have hbig : (20 : ℚ) * 2 ^ (32 : ℕ) < (2 : ℚ) ^ (1023 : ℕ) := by norm_num
  have hB0 : (0 : ℚ) ≤ 20 * (qs.length : ℚ) := by linarith
  have hB : 20 * (qs.length : ℚ) < (2 : ℚ) ^ (1023 : ℕ) := by linarith
  have hc : 20 * (qs.length : ℚ) / 2 ^ (53 : ℕ) + (2 : ℚ) ^ (-1075 : ℤ)
      ≤ 953675 / 100000000000 := by
    have h1 : 20 * (qs.length : ℚ) / 2 ^ (53 : ℕ) ≤ 20 * 2 ^ (32 : ℕ) / 2 ^ (53 : ℕ) :=
      div_le_div_of_nonneg_right (by linarith) (by positivity)
    have h2 : (20 : ℚ) * 2 ^ (32 : ℕ) / 2 ^ (53 : ℕ) ≤ 953674317 / 100000000000000 := by
      norm_num
    linarith
  have hc0 : 0 ≤ 20 * (qs.length : ℚ) / 2 ^ (53 : ℕ) + (2 : ℚ) ^ (-1075 : ℤ) := by positivity
  have hNc : (qs.length : ℚ) * (20 * (qs.length : ℚ) / 2 ^ (53 : ℕ) + (2 : ℚ) ^ (-1075 : ℤ))
      ≤ (qs.length : ℚ) :=
    mul_le_of_le_one_right hNpos.le (by linarith)
  obtain ⟨s, hs, hs0, hserr⟩ := foldl_addFinite_near (20 * (qs.length : ℚ)) hB0 hB qs
    (fun q hq => (hv q hq).1) 0 0 (le_refl _) (le_refl _)
    (by simp only [sub_zero, abs_zero, zero_add, add_zero]; linarith [hsum.2])
  simp only [sub_zero, abs_zero, zero_add] at hserr
  -- the mean of the double sum
  have hq1err : |s / (qs.length : ℚ) - qs.sum / (qs.length : ℚ)|
      ≤ 20 * (qs.length : ℚ) / 2 ^ (53 : ℕ) + (2 : ℚ) ^ (-1075 : ℤ) := by
    rw [← sub_div, abs_div, abs_of_pos hNpos, div_le_iff₀ hNpos]
    linarith [mul_comm (qs.length : ℚ)
      (20 * (qs.length : ℚ) / 2 ^ (53 : ℕ) + (2 : ℚ) ^ (-1075 : ℤ))]
  have hmean0 : 0 ≤ qs.sum / (qs.length : ℚ) := div_nonneg hsum.1 hNpos.le
  have hmean10 : qs.sum / (qs.length : ℚ) ≤ 10 := by
    rw [div_le_iff₀ hNpos]
    exact hsum.2
  have hq1 := abs_le.mp hq1err
  have hq10 : 0 ≤ s / (qs.length : ℚ) := div_nonneg hs0 hNpos.le
  have hq1le : s / (qs.length : ℚ) ≤ 11 := by linarith [hq1.2]
  have hsmall : (120 : ℚ) < (2 : ℚ) ^ (1023 : ℕ) := by norm_num
  obtain ⟨avg, havg, havgerr, havgpos⟩ := toDouble_near (s / (qs.length : ℚ))
    (by rw [abs_of_nonneg hq10]; linarith)
  rw [abs_of_nonneg hq10] at havgerr
  have havg0 : 0 ≤ avg := havgpos hq10
  have ha := abs_le.mp havgerr
  have hd1 : s / (qs.length : ℚ) / 2 ^ (53 : ℕ) ≤ 11 * (1 / 2 ^ (53 : ℕ)) := by
    rw [div_eq_mul_one_div]
    exact mul_le_mul_of_nonneg_right hq1le hu0.le
  have havgle : avg ≤ 12 := by linarith [ha.2]
  -- its half
  obtain ⟨h, hh, hherr, hhpos⟩ := toDouble_near (avg / 2)
    (by rw [abs_of_nonneg (by linarith)]; linarith)
  rw [abs_of_nonneg (by linarith : (0 : ℚ) ≤ avg / 2)] at hherr
  have hh0 : 0 ≤ h := hhpos (by linarith)
  have hhb := abs_le.mp hherr
  have hd2 : avg / 2 / 2 ^ (53 : ℕ) ≤ 6 * (1 / 2 ^ (53 : ℕ)) := by
    rw [div_eq_mul_one_div]
    exact mul_le_mul_of_nonneg_right (by linarith) hu0.le
  have hhle : h ≤ 7 := by linarith [hhb.2]
  -- ten times the half
  obtain ⟨p, hp, hperr, _⟩ := toDouble_near (h * 10)
    (by rw [abs_of_nonneg (by linarith)]; linarith)
  rw [abs_of_nonneg (by linarith : (0 : ℚ) ≤ h * 10)] at hperr
  have hpb := abs_le.mp hperr
  have hd3 : h * 10 / 2 ^ (53 : ℕ) ≤ 70 * (1 / 2 ^ (53 : ℕ)) := by
    rw [div_eq_mul_one_div]
    exact mul_le_mul_of_nonneg_right (by linarith) hu0.le
  have hk := abs_le.mp (mathRound_near p)
  refine ⟨mathRound p, ?_, ?_⟩
  · simp only [hs, JsNumber.divPositive, JsNumber.mulPositive, JsNumber.round, havg, hh, hp]
  · rw [abs_le]
    constructor <;>
      linarith [hq1.1, hq1.2, ha.1, ha.2, hhb.1, hhb.2, hpb.1, hpb.2, hk.1, hk.2]

/-- C3 as the code has it, in double arithmetic, for a raw review that has no
direct numeric rating and whose `reviewCategory` is a non-empty array whose
entries carry the numeric ratings `qs`. If the ratings lie between 0 and 10 and
are fewer than `2 ^ 32`, `computeOverallRating` returns the double nearest to
`k / 10` for an integer `k` with `k / 10` within `1 / 20 + 1 / 100000` of half the
arithmetic mean of `qs`. If no operation rounds (the double sum is the sum, and
the mean, its half and ten times its half are doubles), it returns the double
nearest to `k / 10` where `k / 10` is half the mean rounded to one decimal, a tie
going up. -/
theorem computeOverallRatingDouble_categories (review : JVal) (cs : List JVal) (qs : List ℚ)
    (hrating : ∀ r, review.field "rating" ≠ .num r)
    (hcat : review.field "reviewCategory" = .arr cs)
    (hne : cs ≠ [])
    (hnum : List.Forall₂ (fun c q => c.field "rating" = JVal.num q) cs qs) :
    ((∀ q ∈ qs, 0 ≤ q ∧ q ≤ 10) → qs.length < 2 ^ 32 →
      ∃ k : ℤ, computeOverallRatingDouble review = .ok (some (toDouble ((k : ℚ) / 10))) ∧
        |(k : ℚ) / 10 - qs.sum / (qs.length : ℚ) / 2| ≤ 1 / 20 + 1 / 100000) ∧
    (qs.foldl (fun a b => a.addFinite b) (JsNumber.fin 0) = .fin qs.sum →
      isDouble (qs.sum / (qs.length : ℚ)) → isDouble (qs.sum / (qs.length : ℚ) / 2) →
      isDouble (qs.sum / (qs.length : ℚ) / 2 * 10) →
      ∃ k : ℤ, computeOverallRatingDouble review = .ok (some (toDouble ((k : ℚ) / 10))) ∧
        qs.sum / (qs.length : ℚ) / 2 - 1 / 20 < (k : ℚ) / 10 ∧
        (k : ℚ) / 10 ≤ qs.sum / (qs.length : ℚ) / 2 + 1 / 20) := by
  have hc := computeOverallRatingDouble_of_categories review cs qs hrating hcat hne hnum
  have hlen0 : qs.length ≠ 0 := by
    have := hnum.length_eq
    intro h0
    rw [h0] at this
    exact hne (List.length_eq_zero.mp this)
  constructor
  · intro hv hlen
    obtain ⟨k, hk, hbound⟩ := categories_chain_near qs hlen0 hlen hv
    exact ⟨k, by rw [hc, hk], hbound⟩
  · intro hsum hmean hhalf hten
    refine ⟨mathRound (qs.sum / (qs.length : ℚ) / 2 * 10), ?_,
      mathRound_tenth_bounds (qs.sum / (qs.length : ℚ) / 2)⟩
    unfold isDouble at hmean hhalf hten
    rw [hc, hsum]
    simp only [JsNumber.divPositive, JsNumber.mulPositive, JsNumber.round, hmean, hhalf, hten]

theorem toDouble_uneven_sum :
    List.foldl (fun a b => JsNumber.addFinite a b) (JsNumber.fin 0)
      [5, 5573204538870989 / 562949953421312, 10]
      = .fin (3504363460047667 / 140737488355328) := by
  have h1 : toDouble (0 + 5) = .fin 5 := by
    refine toDouble_eval _ _ 2 5629499534213120 (by norm_num) (by norm_num [abs_of_pos])
      (by norm_num [abs_of_pos]) ?_ (by norm_num) (by norm_num) (by norm_num)
    unfold roundHalfEven
    norm_num
  have h2 : toDouble (5 + 5573204538870989 / 562949953421312)
      = .fin (8387954305977549 / 562949953421312) := by
    refine toDouble_eval _ _ 3 8387954305977549 (by norm_num) (by norm_num [abs_of_pos])
      (by norm_num [abs_of_pos]) ?_ (by norm_num) (by norm_num) (by norm_num)
    unfold roundHalfEven
    norm_num
  have h3 : toDouble (8387954305977549 / 562949953421312 + 10)
      = .fin (3504363460047667 / 140737488355328) := by
    refine toDouble_eval _ _ 4 7008726920095334 (by norm_num) (by norm_num [abs_of_pos])
      (by norm_num [abs_of_pos]) ?_ (by norm_num) (by norm_num) (by norm_num)
    unfold roundHalfEven
    norm_num
  simp only [List.foldl, JsNumber.addFinite, h1, h2, h3]

theorem toDouble_uneven_chain :
    toDouble (3504363460047667 / 140737488355328 / ((3 : ℕ) : ℚ))
      = .fin (4672484613396889 / 562949953421312) ∧
    toDouble (4672484613396889 / 562949953421312 / 2)
      = .fin (4672484613396889 / 1125899906842624) ∧
    toDouble (4672484613396889 / 1125899906842624 * 10)
      = .fin (5840605766746111 / 140737488355328) ∧
    mathRound (5840605766746111 / 140737488355328) = 41 ∧
    toDouble (((41 : ℤ) : ℚ) / 10) = .fin (2308094809027379 / 562949953421312) := by
  refine ⟨?_, ?_, ?_, ?_, ?_⟩
  · refine toDouble_eval _ _ 3 4672484613396889 (by norm_num) (by norm_num [abs_of_pos])
      (by norm_num [abs_of_pos]) ?_ (by norm_num) (by norm_num) (by norm_num)
    unfold roundHalfEven
    norm_num
  · refine toDouble_eval _ _ 2 4672484613396889 (by norm_num) (by norm_num [abs_of_pos])
      (by norm_num [abs_of_pos]) ?_ (by norm_num) (by norm_num) (by norm_num)
    unfold roundHalfEven
    norm_num
  · refine toDouble_eval _ _ 5 5840605766746111 (by norm_num) (by norm_num [abs_of_pos])
      (by norm_num [abs_of_pos]) ?_ (by norm_num) (by norm_num) (by norm_num)
    unfold roundHalfEven
    norm_num
  · unfold mathRound
    norm_num
  · refine toDouble_eval _ _ 2 4616189618054758 (by norm_num) (by norm_num [abs_of_pos])
      (by norm_num [abs_of_pos]) ?_ (by norm_num) (by norm_num) (by norm_num)
    unfold roundHalfEven
    norm_num

/-- C3 fails as stated: for the category ratings 5, 9.9 (the double nearest to it,
which is above 9.9) and 10, half the arithmetic mean is above 4.15 and rounds to
4.2, and the code returns the double nearest to 4.1, because the double sum and
the double mean fall below the exact ones. -/
theorem category_mean_rounds_to_other_tenth :
    computeOverallRatingDouble rawUnevenCategories
      = .ok (some (.fin (2308094809027379 / 562949953421312))) ∧
    toDouble (((41 : ℤ) : ℚ) / 10) = .fin (2308094809027379 / 562949953421312) ∧
    ([5, 5573204538870989 / 562949953421312, 10] : List ℚ).sum / ((3 : ℕ) : ℚ) / 2 - 1 / 20
      < ((42 : ℤ) : ℚ) / 10 ∧
    ((42 : ℤ) : ℚ) / 10
      ≤ ([5, 5573204538870989 / 562949953421312, 10] : List ℚ).sum / ((3 : ℕ) : ℚ) / 2 + 1 / 20 ∧
    toDouble (((42 : ℤ) : ℚ) / 10) = .fin (4728779608739021 / 1125899906842624) ∧
    JsNumber.fin (2308094809027379 / 562949953421312)
      ≠ .fin (4728779608739021 / 1125899906842624) := by
  have hrating : ∀ r, rawUnevenCategories.field "rating" ≠ .num r := by
    intro r
    simp [rawUnevenCategories, JVal.field, lookup]
  have hcat : rawUnevenCategories.field "reviewCategory" = .arr unevenCategories := rfl
  have hnum : List.Forall₂ (fun c q => c.field "rating" = JVal.num q) unevenCategories
      [5, 5573204538870989 / 562949953421312, 10] := by
    simp [unevenCategories, JVal.field, lookup]
  obtain ⟨c1, c2, c3, c4, c5⟩ := toDouble_uneven_chain
  refine ⟨?_, c5, by norm_num, by norm_num, ?_, ?_⟩
  · rw [computeOverallRatingDouble_of_categories rawUnevenCategories unevenCategories
      [5, 5573204538870989 / 562949953421312, 10] hrating hcat (by simp [unevenCategories]) hnum,
      toDouble_uneven_sum]
    simp only [JsNumber.divPositive, JsNumber.mulPositive, JsNumber.round, List.length_cons,
      List.length_nil, Nat.zero_add, Nat.reduceAdd, c1, c2, c3, c4, c5]
  · refine toDouble_eval _ _ 2 4728779608739021 (by norm_num) (by norm_num [abs_of_pos])
      (by norm_num [abs_of_pos]) ?_ (by norm_num) (by norm_num) (by norm_num)
    unfold roundHalfEven
    norm_num
  · intro h
    injection h with h
    norm_num at h

theorem exact_steps_eight_ten_six :
    List.foldl (fun a b => JsNumber.addFinite a b) (JsNumber.fin 0) [8, 10, 6]
      = .fin ([8, 10, 6] : List ℚ).sum ∧
    isDouble (([8, 10, 6] : List ℚ).sum / (([8, 10, 6] : List ℚ).length : ℚ)) ∧
    isDouble (([8, 10, 6] : List ℚ).sum / (([8, 10, 6] : List ℚ).length : ℚ) / 2) ∧
    isDouble (([8, 10, 6] : List ℚ).sum / (([8, 10, 6] : List ℚ).length : ℚ) / 2 * 10) := by
  have h1 : toDouble (0 + 8) = .fin 8 := by
    refine toDouble_eval _ _ 3 4503599627370496 (by norm_num) (by norm_num [abs_of_pos])
      (by norm_num [abs_of_pos]) ?_ (by norm_num) (by norm_num) (by norm_num)
    unfold roundHalfEven
    norm_num
  have h2 : toDouble (8 + 10) = .fin 18 := by
    refine toDouble_eval _ _ 4 5066549580791808 (by norm_num) (by norm_num [abs_of_pos])
      (by norm_num [abs_of_pos]) ?_ (by norm_num) (by norm_num) (by norm_num)
    unfold roundHalfEven
    norm_num
  have h3 : toDouble (18 + 6) = .fin 24 := by
    refine toDouble_eval _ _ 4 6755399441055744 (by norm_num) (by norm_num [abs_of_pos])
      (by norm_num [abs_of_pos]) ?_ (by norm_num) (by norm_num) (by norm_num)
    unfold roundHalfEven
    norm_num
  have hsum : ([8, 10, 6] : List ℚ).sum = 24 := by norm_num
  have hlen : (([8, 10, 6] : List ℚ).length : ℚ) = 3 := by norm_num
  rw [hsum, hlen]
  unfold isDouble
  refine ⟨?_, ?_, ?_, ?_⟩
  · simp only [List.foldl, JsNumber.addFinite, h1, h2, h3]
  · refine toDouble_eval _ _ 3 4503599627370496 (by norm_num) (by norm_num [abs_of_pos])
      (by norm_num [abs_of_pos]) ?_ (by norm_num) (by norm_num) (by norm_num)
    unfold roundHalfEven
    norm_num
  · refine toDouble_eval _ _ 2 4503599627370496 (by norm_num) (by norm_num [abs_of_pos])
      (by norm_num [abs_of_pos]) ?_ (by norm_num) (by norm_num) (by norm_num)
    unfold roundHalfEven
    norm_num
  · refine toDouble_eval _ _ 5 5629499534213120 (by norm_num) (by norm_num [abs_of_pos])
      (by norm_num [abs_of_pos]) ?_ (by norm_num) (by norm_num) (by norm_num)
    unfold roundHalfEven
    norm_num

/-- C3 as the code has it, at the category ratings 8, 10, 6 of the specification:
the result is 4, and no operation rounds. -/
theorem computeOverallRatingDouble_categories_example :
    computeOverallRatingDouble rawCategories = .ok (some (.fin 4)) ∧
    ∃ k : ℤ, computeOverallRatingDouble rawCategories = .ok (some (toDouble ((k : ℚ) / 10))) ∧
      ([8, 10, 6] : List ℚ).sum / (([8, 10, 6] : List ℚ).length : ℚ) / 2 - 1 / 20
        < (k : ℚ) / 10 ∧
      (k : ℚ) / 10
        ≤ ([8, 10, 6] : List ℚ).sum / (([8, 10, 6] : List ℚ).length : ℚ) / 2 + 1 / 20 := by
  have hrating : ∀ r, rawCategories.field "rating" ≠ .num r := by
    intro r
    simp [rawCategories, JVal.field, lookup]
  have hcat : rawCategories.field "reviewCategory" = .arr threeCategories := by
    simp [rawCategories, JVal.field, lookup]
  have hnum : List.Forall₂ (fun c q => c.field "rating" = JVal.num q) threeCategories
      [8, 10, 6] := by
    simp [threeCategories, JVal.field, lookup]
  have hthm := computeOverallRatingDouble_categories rawCategories threeCategories [8, 10, 6]
    hrating hcat (by simp [threeCategories]) hnum
  obtain ⟨e1, e2, e3, e4⟩ := exact_steps_eight_ten_six
  refine ⟨?_, hthm.2 e1 e2 e3 e4⟩
  obtain ⟨k, hk, hbound⟩ := hthm.1
      (by
        intro q hq
        simp only [List.mem_cons, List.mem_singleton, List.not_mem_nil, or_false] at hq
        rcases hq with h | h | h <;> rw [h] <;> norm_num)
      (by norm_num)
  have hmean : ([8, 10, 6] : List ℚ).sum / (([8, 10, 6] : List ℚ).length : ℚ) / 2 = 4 := by
    norm_num
  rw [hmean] at hbound
  have hb := abs_le.mp hbound
  have h1 : (39 : ℚ) < (k : ℚ) := by linarith [hb.1]
  have h2 : (k : ℚ) < (41 : ℚ) := by linarith [hb.2]
  have h3 : (39 : ℤ) < k := by exact_mod_cast h1
  have h4 : k < (41 : ℤ) := by exact_mod_cast h2
  have h5 : k = 40 := by omega
  have ht : toDouble (((40 : ℤ) : ℚ) / 10) = .fin 4 := by
    refine toDouble_eval _ _ 2 4503599627370496 (by norm_num) (by norm_num [abs_of_pos])
      (by norm_num [abs_of_pos]) ?_ (by norm_num) (by norm_num) (by norm_num)
    unfold roundHalfEven
    norm_num
  rw [hk, h5, ht]

/-! ## The range of the overall rating in double arithmetic -/

theorem toDouble_tenth_range (k : ℤ) (h0 : 0 ≤ k) (h50 : k ≤ 50) :
    ∃ v, toDouble ((k : ℚ) / 10) = .fin v ∧ 0 ≤ v ∧ v ≤ 5 := by
  have hk0 : (0 : ℚ) ≤ (k : ℚ) := by exact_mod_cast h0
  rcases eq_or_lt_of_le h50 with h | h
  · subst h
    refine ⟨5, ?_, by norm_num, le_refl _⟩
    refine toDouble_eval _ _ 2 5629499534213120 (by norm_num) (by norm_num [abs_of_pos])
      (by norm_num [abs_of_pos]) ?_ (by norm_num) (by norm_num) (by norm_num)
    unfold roundHalfEven
    norm_num
  · have h49 : k ≤ 49 := by omega
    have hk49 : (k : ℚ) ≤ 49 := by exact_mod_cast h49
    have hx0 : (0 : ℚ) ≤ (k : ℚ) / 10 := by positivity
    have hbig : (5 : ℚ) < (2 : ℚ) ^ (1023 : ℕ) := by norm_num
    obtain ⟨v, hv, hverr, hvpos⟩ := toDouble_near ((k : ℚ) / 10)
      (by rw [abs_of_nonneg hx0]; linarith)
    rw [abs_of_nonneg hx0] at hverr
    have hη : (2 : ℚ) ^ (-1075 : ℤ) ≤ 1 / 2 ^ (60 : ℕ) := by
      rw [zpow_neg, one_div]
      apply inv_anti₀ (by positivity)
      have : (2 : ℚ) ^ (60 : ℕ) = (2 : ℚ) ^ (60 : ℤ) := by norm_cast
      rw [this]
      exact zpow_le_zpow_right₀ (by norm_num) (by norm_num)
    have hη2 : (1 : ℚ) / 2 ^ (60 : ℕ) ≤ 1 / 1000 := by norm_num
    have hu : (k : ℚ) / 10 / 2 ^ (53 : ℕ) ≤ 1 / 1000 := by
      rw [div_le_iff₀ (by positivity)]
      norm_num
      linarith
    have hb := abs_le.mp hverr
    exact ⟨v, hv, hvpos hx0, by linarith [hb.2]⟩

/-- The range that C4 states holds in double arithmetic too: for a direct rating
between 0 and 10, and for fewer than `2 ^ 32` category ratings between 0 and 10,
the overall rating computed in doubles is a finite number between 0 and 5. -/
theorem computeOverallRatingDouble_range (review : JVal) :
    (∀ r, review.field "rating" = .num r → 0 ≤ r → r ≤ 10 →
      ∃ v, computeOverallRatingDouble review = .ok (some (.fin v)) ∧ 0 ≤ v ∧ v ≤ 5) ∧
    (∀ cs qs, (∀ r, review.field "rating" ≠ .num r) →
      review.field "reviewCategory" = .arr cs → cs ≠ [] →
      List.Forall₂ (fun c q => c.field "rating" = JVal.num q) cs qs →
      (∀ q ∈ qs, 0 ≤ q ∧ q ≤ 10) → qs.length < 2 ^ 32 →
      ∃ v, computeOverallRatingDouble review = .ok (some (.fin v)) ∧ 0 ≤ v ∧ v ≤ 5) := by
  have hbig : (10 : ℚ) < (2 : ℚ) ^ (1020 : ℕ) := by norm_num
  constructor
  · intro r hfield h0 h10
    have hc := computeOverallRatingDouble_of_num review r hfield
    by_cases h5 : r > 5
    · obtain ⟨k, hk, hbound⟩ := direct_chain_near r h5 (by linarith)
      have hb := abs_le.mp hbound
      have hsmall : r / 2 ^ (52 : ℕ) ≤ 1 / 100 := by
        rw [div_le_iff₀ (by positivity)]
        norm_num
        linarith
      have h1 : (-1 : ℚ) < (k : ℚ) := by linarith [hb.1]
      have h2 : (k : ℚ) < (51 : ℚ) := by linarith [hb.2]
      have h3 : (-1 : ℤ) < k := by exact_mod_cast h1
      have h4 : k < (51 : ℤ) := by exact_mod_cast h2
      obtain ⟨v, hv, hv0, hv5⟩ := toDouble_tenth_range k (by omega) (by omega)
      exact ⟨v, by rw [hc, if_pos h5, hk, hv], hv0, hv5⟩
    · exact ⟨r, by rw [hc, if_neg h5], h0, not_lt.mp h5⟩
  · intro cs qs hrating hcat hne hnum hv hlen
    have hc := computeOverallRatingDouble_of_categories review cs qs hrating hcat hne hnum
    have hlen0 : qs.length ≠ 0 := by
      have := hnum.length_eq
      intro h0
      rw [h0] at this
      exact hne (List.length_eq_zero.mp this)
    obtain ⟨k, hk, hbound⟩ := categories_chain_near qs hlen0 hlen hv
    have hm := mean_range qs hlen0 hv
    have hb := abs_le.mp hbound
    have h1 : (-1 : ℚ) < (k : ℚ) := by linarith [hb.1, hm.1]
    have h2 : (k : ℚ) < (51 : ℚ) := by linarith [hb.2, hm.2]
    have h3 : (-1 : ℤ) < k := by exact_mod_cast h1
    have h4 : k < (51 : ℤ) := by exact_mod_cast h2
    obtain ⟨v, hv2, hv0, hv5⟩ := toDouble_tenth_range k (by omega) (by omega)
    exact ⟨v, by rw [hc, hk, hv2], hv0, hv5⟩

end ReviewsServer
